import Mathlib

/-!
Verification of the didwebvh-ts core against its specification.

This file gives a shallow embedding, in Lean 4, of the parts of the
didwebvh-ts library that the checked claims are about:

* the multibase base58btc encoder/decoder and the sha2-256 multihash
  framing (src/utils/multiformats.ts);
* the assertion helpers hashChainValid, scidIsFromHash,
  newKeysAreInNextKeys (src/assertions.ts);
* the witness-parameter validator and the witness-proof counter
  (src/witness.ts, the resolution variant that counts distinct
  approvals);
* the log replay state machine resolveDIDFromLog and the deactivation
  pre-check of updateDID (src/method.ts).

External capabilities that the library itself delegates (the SHA-256
digest from @noble/hashes, the JCS canonicalizer from
json-canonicalize, Data-Integrity proof verification with the injected
verifier, and the witness-proof fetcher) are modelled as parameters
collected in the CryptoPrimitives structure, mirroring the
library's own injection model.  Everything below that boundary is
translated from the TypeScript sources.

JavaScript strings are modelled as Lean String values; the handful of
string operations the sources use (split on a one-character separator,
startsWith, includes, replaceAll, parseInt) are defined here
structurally so that all definitions evaluate inside the kernel.
-/

/-! ## String helpers mirroring the JavaScript primitives used by the sources -/

/-- Model of JavaScript `s.split(sep)` for a one-character separator
(the sources only ever split on `'-'` and `':'`).  Always returns a
non-empty list; `"".split(x)` is `[""]` exactly as in JavaScript. -/
def splitChar (sep : Char) : List Char → List (List Char)
  | [] => [[]]
  | c :: cs =>
    match splitChar sep cs with
    | [] => [[]]
    | h :: t => if c == sep then [] :: h :: t else (c :: h) :: t

/-- String-level wrapper for `splitChar`. -/
def splitStr (sep : Char) (s : String) : List String :=
  (splitChar sep s.data).map String.mk

/-- Model of JavaScript `s.startsWith(pre)`. -/
def strStartsWith (s pre : String) : Bool :=
  pre.data.isPrefixOf s.data

/-- Model of JavaScript `s.includes(sub)` on character lists. -/
def containsSubAux (sub : List Char) : List Char → Bool
  | [] => sub.isEmpty
  | c :: cs => sub.isPrefixOf (c :: cs) || containsSubAux sub cs

/-- Model of JavaScript `s.includes(sub)`. -/
def strContainsSub (s sub : String) : Bool :=
  containsSubAux sub.data s.data

/-- Model of JavaScript `arr.join(sep)`. -/
def joinWith (sep : String) : List String → String
  | [] => ""
  | [x] => x
  | x :: y :: t => x ++ sep ++ joinWith sep (y :: t)

/-- Fuel-driven worker for `replaceAllStr`; the fuel is the length of
the subject string, which suffices because each step consumes at least
one character when the pattern is non-empty. -/
def replaceAllAux (pat rep : List Char) : Nat → List Char → List Char
  | _, [] => []
  | 0, l => l
  | Nat.succ fuel, c :: cs =>
    if pat.isPrefixOf (c :: cs) then
      rep ++ replaceAllAux pat rep fuel ((c :: cs).drop pat.length)
    else
      c :: replaceAllAux pat rep fuel cs

/-- Model of JavaScript `s.replaceAll(pat, rep)` for a non-empty string
pattern (the sources only ever substitute the SCID value and the SCID
placeholder token, both non-empty). -/
def replaceAllStr (s pat rep : String) : String :=
  if pat.data.isEmpty then s
  else String.mk (replaceAllAux pat.data rep.data s.data.length s.data)

/-- Decimal value of a list of decimal digit characters. -/
def decDigitsVal (cs : List Char) : Nat :=
  cs.foldl (fun a c => a * 10 + (c.toNat - 48)) 0

/-- Model of JavaScript `parseInt(s)` in base 10: skip leading
whitespace, accept an optional sign, read the longest leading run of
decimal digits; `none` models `NaN`. -/
def parseIntJS (s : String) : Option Int :=
  let cs := s.data.dropWhile (fun c => c == ' ' || c == '\t' || c == '\n' || c == '\r')
  match cs with
  | '-' :: rest =>
    let ds := rest.takeWhile Char.isDigit
    if ds.isEmpty then none else some (-(decDigitsVal ds : Int))
  | '+' :: rest =>
    let ds := rest.takeWhile Char.isDigit
    if ds.isEmpty then none else some (decDigitsVal ds : Int)
  | _ =>
    let ds := cs.takeWhile Char.isDigit
    if ds.isEmpty then none else some (decDigitsVal ds : Int)

/-! ## Base58btc and multihash (src/utils/multiformats.ts) -/

/-- The bitcoin base58 alphabet, exactly the BASE_ALPHABETS entry for
BASE58_BTC in multiformats.ts. -/
def b58Alphabet : List Char :=
  ['1', '2', '3', '4', '5', '6', '7', '8', '9',
   'A', 'B', 'C', 'D', 'E', 'F', 'G', 'H', 'J', 'K', 'L', 'M', 'N',
   'P', 'Q', 'R', 'S', 'T', 'U', 'V', 'W', 'X', 'Y', 'Z',
   'a', 'b', 'c', 'd', 'e', 'f', 'g', 'h', 'i', 'j', 'k', 'm', 'n',
   'o', 'p', 'q', 'r', 's', 't', 'u', 'v', 'w', 'x', 'y', 'z']

/-- Character for a base58 digit, `ALPHABET[d]` in the source. -/
def b58Char (d : Nat) : Char := b58Alphabet.getD d ' '

/-- Model of `ALPHABET.indexOf(c)`, with `none` for the source's `-1`. -/
def b58Index (c : Char) : Option Nat :=
  b58Alphabet.findIdx? (fun x => x == c)

/-- Fuel-driven big-endian base-`base` digit expansion; the fuel bounds
the recursion depth and `n` itself is always sufficient fuel.  This is
the `while (num > 0n) { result = ALPHABET[num % base] + result; num =
num / base }` loop of the source, producing bare digit values. -/
def natBEAux (base : Nat) : Nat → Nat → List Nat
  | 0, _ => []
  | _ + 1, 0 => []
  | fuel + 1, n + 1 => natBEAux base fuel ((n + 1) / base) ++ [(n + 1) % base]

/-- Big-endian base-`base` digits of `n` (empty for `n = 0`). -/
def natBE (base n : Nat) : List Nat := natBEAux base n n

/-- Model of encodeBase58Btc from multiformats.ts: count leading zero
bytes, interpret all bytes as a big integer, expand in base 58, and
prepend one `'1'` per leading zero byte. -/
def encodeBase58Btc (bytes : List Nat) : String :=
  let zeros := (bytes.takeWhile (fun b => b == 0)).length
  let num := bytes.foldl (fun a b => a * 256 + b) 0
  String.mk (List.replicate zeros '1' ++ (natBE 58 num).map b58Char)

/-- The digit-accumulation loop of decodeBase58Btc: `num = num * 58n +
value`, throwing on a character outside the alphabet. -/
def b58Fold : Nat → List Char → Except String Nat
  | a, [] => .ok a
  | a, c :: cs =>
    match b58Index c with
    | some v => b58Fold (a * 58 + v) cs
    | none => .error ("Invalid Base58 character: " ++ String.mk [c])

/-- Model of decodeBase58Btc from multiformats.ts: count leading `'1'`
characters, fold the remaining characters into a big integer, expand it
base 256, and prepend one zero byte per leading `'1'`. -/
def decodeBase58Btc (s : String) : Except String (List Nat) :=
  let cs := s.data
  let zeros := (cs.takeWhile (fun c => c == '1')).length
  let rest := cs.drop zeros
  match b58Fold 0 rest with
  | .error e => .error e
  | .ok num => .ok (List.replicate zeros 0 ++ natBE 256 num)

/-- Model of createMultihash from multiformats.ts at algorithm
SHA2-256 (0x12): the varint encodings of the algorithm code 0x12 and of
the digest length 32 are the single bytes 18 and 32, and the digest
length is validated against the DIGEST_LENGTHS table. -/
def createMultihash (digest : List Nat) : Except String (List Nat) :=
  if digest.length = 32 then .ok (18 :: 32 :: digest)
  else .error "Invalid digest length"

/-! ## Data model (src/interfaces.ts)

Optional JSON fields are `Option`; the `witness` parameter is
`Option (Option _)` because the sources distinguish an absent key, an
explicit `null` (clearing the witness configuration) and a present
value via the JavaScript `'witness' in parameters` test. -/

structure WitnessEntry where
  id : String
  weight : Nat
deriving DecidableEq, Repr

structure WitnessParameter where
  threshold : Nat
  witnesses : List WitnessEntry
deriving DecidableEq, Repr

structure DataIntegrityProof where
  type : String := "DataIntegrityProof"
  cryptosuite : String := "eddsa-jcs-2022"
  verificationMethod : String
  created : String := ""
  proofPurpose : String := "authentication"
  proofValue : String := ""
deriving DecidableEq, Repr

structure ServiceEndpoint where
  id : String
  type : String
  serviceEndpoint : String
deriving DecidableEq, Repr

/-- The DID document fields the resolver core reads or writes: `id`
(host extraction, portability gate) and `service` (default-service
materialization).  The remaining document content is carried opaquely
by the injected proof-verification capability and does not influence
the replay control flow. -/
structure DIDDoc where
  id : String
  service : List ServiceEndpoint := []
deriving DecidableEq, Repr

structure DIDParameters where
  method : Option String := none
  scid : Option String := none
  updateKeys : Option (List String) := none
  nextKeyHashes : Option (List String) := none
  portable : Option Bool := none
  witness : Option (Option WitnessParameter) := none
  witnesses : Option (List WitnessEntry) := none
  witnessThreshold : Option Nat := none
  deactivated : Option Bool := none
deriving DecidableEq, Repr

structure DIDLogEntry where
  versionId : String
  versionTime : String := ""
  parameters : DIDParameters := {}
  state : DIDDoc
  proof : List DataIntegrityProof := []
deriving DecidableEq, Repr

structure WitnessProofFileEntry where
  versionId : String
  proof : List DataIntegrityProof
deriving DecidableEq, Repr

/-- Resolution metadata accumulated during replay, with the same
initial values as the `meta` literal in resolveDIDFromLog.
`updateKeys` is `Option` because entry 1 copies `parameters.updateKeys`
into the metadata without a default. -/
structure DIDResolutionMeta where
  versionId : String := ""
  created : String := ""
  updated : String := ""
  previousLogEntryHash : String := ""
  scid : String := ""
  prerotation : Bool := false
  portable : Bool := false
  nextKeyHashes : List String := []
  deactivated : Bool := false
  updateKeys : Option (List String) := some []
  witness : Option WitnessParameter := none
deriving DecidableEq, Repr

/-- Resolution options.  The `versionTime` and `verificationMethod`
selectors involve wall-clock Date comparison and document traversal and
are not exercised by any claim; the calls modelled here are those that
do not pass them. -/
structure ResolutionOptions where
  versionNumber : Option Nat := none
  versionId : Option String := none
  witnessProofs : Option (List WitnessProofFileEntry) := none

/-- The injected and external capabilities of the library, mirroring
its own dependency boundary:

* `sha` is the SHA-256 digest over the UTF-8 bytes of a string
  (createHash in src/utils/crypto.ts, delegating to @noble/hashes);
* `canon` is the JCS canonicalizer (the json-canonicalize package)
  rendering a log entry (with `proof := []` standing for the absent
  key) to its canonical JSON text;
* `docStateValid` is documentStateIsValid from src/assertions.ts,
  which resolves verification methods and runs the injected
  Data-Integrity verifier; it either throws or returns true, so it is
  modelled as an `Except`;
* `witnessSigOk` decides the cryptographic block of a single witness
  proof (verification-method resolution, key decoding and signature
  verification against the canonicalized `{versionId}` payload) in
  verifyWitnessProofs;
* `fetchWitnessProofs` is the host-supplied witness-file fetcher. -/
structure CryptoPrimitives where
  sha : String → List Nat
  canon : DIDLogEntry → String
  docStateValid : DIDLogEntry → Option (List String) → Option WitnessParameter → Except String Unit
  witnessSigOk : String → DataIntegrityProof → Bool
  fetchWitnessProofs : String → List WitnessProofFileEntry

/-! ## Constants (src/constants.ts)

The constants module is not present under src/, so its two values are
modelled from the spec. -/

/-- Modelled from the spec: constants.ts is not under src/.  The SCID
placeholder token substituted textually into the first log entry. -/
def PLACEHOLDER : String := "\x7bSCID\x7d"

/-- Modelled from the spec: constants.ts is not under src/.  The
protocol version tag checked against `parameters.method` of the first
entry; the README targets did:webvh v0.5 and the exact tag value does
not influence any claim. -/
def PROTOCOL : String := "did:webvh:0.5"

/-! ## Hash derivations (src/utils.ts) -/

/-- deriveHash from src/utils.ts: base58btc of the sha2-256 multihash
of the JCS canonicalization of the input (the memoization cache of the
source only avoids recomputation and does not change the result). -/
def deriveHash (c : CryptoPrimitives) (e : DIDLogEntry) : Except String String :=
  match createMultihash (c.sha (c.canon e)) with
  | .ok mh => .ok (encodeBase58Btc mh)
  | .error msg => .error msg

/-- deriveNextKeyHash from src/utils.ts: base58btc of the sha2-256
multihash of the UTF-8 bytes of the key string. -/
def deriveNextKeyHash (c : CryptoPrimitives) (input : String) : Except String String :=
  match createMultihash (c.sha input) with
  | .ok mh => .ok (encodeBase58Btc mh)
  | .error msg => .error msg

/-- createSCID from src/utils.ts: the identity on the first-entry hash. -/
def createSCID (logEntryHash : String) : String := logEntryHash

/-! ## Assertions (src/assertions.ts)

The environment bypass switches (IGNORE_ASSERTION_*) default to unset
and exist only for isolated unit tests; the model is the code with all
checks active. -/

/-- hashChainValid from src/assertions.ts. -/
def hashChainValid (derivedHash logEntryHash : String) : Bool :=
  derivedHash == logEntryHash

/-- scidIsFromHash from src/assertions.ts. -/
def scidIsFromHash (scid hash : String) : Bool :=
  scid == createSCID hash

/-- The `for (const key of updateKeys)` loop of newKeysAreInNextKeys. -/
def checkKeysAgainstHashes (c : CryptoPrimitives) (hashes : List String) :
    List String → Except String Bool
  | [] => .ok true
  | k :: rest =>
    match deriveNextKeyHash c k with
    | .error e => .error e
    | .ok keyHash =>
      if hashes.contains keyHash then checkKeysAgainstHashes c hashes rest
      else .error ("Invalid update key " ++ keyHash ++ ". Not found in nextKeyHashes")

/-- newKeysAreInNextKeys from src/assertions.ts. -/
def newKeysAreInNextKeys (c : CryptoPrimitives) (updateKeys previousNextKeyHashes : List String) :
    Except String Bool :=
  if previousNextKeyHashes.length > 0 then
    checkKeysAgainstHashes c previousNextKeyHashes updateKeys
  else .ok true

/-! ## Witness validation and counting (src/witness.ts, resolution variant) -/

/-- The witness-list loop of validateWitnessParameter: did:key format
and duplicate detection, accumulating the set of seen ids. -/
def checkWitnessList : List String → List WitnessEntry → Except String Unit
  | _, [] => .ok ()
  | seen, w :: rest =>
    if !(strStartsWith w.id "did:key:") then
      .error "Witness DIDs must be did:key format"
    else if seen.contains w.id then
      .error ("Duplicate witness id: " ++ w.id)
    else checkWitnessList (w.id :: seen) rest

/-- validateWitnessParameter from src/witness.ts (resolution variant):
non-empty witness list, threshold between 1 and the number of
witnesses, did:key ids, no duplicates.  `parseInt(threshold.toString())`
on an integer threshold is the threshold itself. -/
def validateWitnessParameter (w : WitnessParameter) : Except String Unit :=
  if w.witnesses.isEmpty then
    .error "Witness list cannot be empty"
  else if w.threshold < 1 || w.witnesses.length < w.threshold then
    .error "Witness threshold must be between 1 and the number of witnesses"
  else checkWitnessList [] w.witnesses

/-- One witness proof inside verifyWitnessProofs: cryptosuite check,
authorized-witness lookup by id prefix of the verification method,
duplicate skip, then the cryptographic block (abstracted by
`witnessSigOk`; any failure inside that try-block is re-thrown with the
`Invalid witness proof:` prefix).  The state is the pair of the
`approvals` counter and the `processedWitnesses` set. -/
def vwpStep (c : CryptoPrimitives) (vid : String) (cw : WitnessParameter)
    (st : Nat × List String) (p : DataIntegrityProof) : Except String (Nat × List String) :=
  if p.cryptosuite != "eddsa-jcs-2022" then
    .error "Invalid witness proof cryptosuite"
  else
    match cw.witnesses.find? (fun w => strStartsWith p.verificationMethod w.id) with
    | none => .error "Proof from unauthorized witness"
    | some w =>
      if st.2.contains w.id then .ok st
      else if c.witnessSigOk vid p then .ok (st.1 + 1, w.id :: st.2)
      else .error "Invalid witness proof: signature verification failed"

/-- The inner `for (const proof of proofSet.proof)` loop. -/
def vwpFoldProofs (c : CryptoPrimitives) (vid : String) (cw : WitnessParameter) :
    Nat × List String → List DataIntegrityProof → Except String (Nat × List String)
  | st, [] => .ok st
  | st, p :: ps =>
    match vwpStep c vid cw st p with
    | .error e => .error e
    | .ok st' => vwpFoldProofs c vid cw st' ps

/-- The outer `for (const proofSet of witnessProofs)` loop. -/
def vwpFoldSets (c : CryptoPrimitives) (vid : String) (cw : WitnessParameter) :
    Nat × List String → List WitnessProofFileEntry → Except String (Nat × List String)
  | st, [] => .ok st
  | st, s :: ss =>
    match vwpFoldProofs c vid cw st s.proof with
    | .error e => .error e
    | .ok st' => vwpFoldSets c vid cw st' ss

/-- verifyWitnessProofs from src/witness.ts (resolution variant):
count approvals from distinct authorized witnesses over all proof sets
and require the count to meet the threshold. -/
def verifyWitnessProofs (c : CryptoPrimitives) (logEntry : DIDLogEntry)
    (witnessProofs : List WitnessProofFileEntry) (currentWitness : WitnessParameter) :
    Except String Unit :=
  match vwpFoldSets c logEntry.versionId currentWitness (0, []) witnessProofs with
  | .error e => .error e
  | .ok st =>
    if st.1 < currentWitness.threshold then
      .error ("Witness threshold not met: got " ++ toString st.1 ++ ", need " ++
        toString currentWitness.threshold)
    else .ok ()

/-! ## The log replay state machine (src/method.ts, resolveDIDFromLog) -/

/-- Last colon-separated segment of a string, `s.split(':').at(-1)`. -/
def lastColonSeg (s : String) : String :=
  (splitStr ':' s).getLastD ""

/-- The two components of `versionId.split('-')` destructured by the
resolver: the part before the first dash and the part after it.  A
missing second part is JavaScript `undefined`, which stringifies to
"undefined" when interpolated. -/
def versionParts (vid : String) : String × String :=
  let ps := splitStr '-' vid
  (ps.headD "", ps.getD 1 "undefined")

/-- The per-entry version-number check of resolveDIDFromLog (method.ts
lines 119-122): `parseInt(version)` of the prefix before the first dash
must equal the expected 1-based position `i + 1`. -/
def versionNumberCheck (i : Nat) (vid : String) : Except String (String × String) :=
  let vp := versionParts vid
  if parseIntJS vp.1 = some ((i : Int) + 1) then .ok vp
  else
    .error ("version " ++ vp.1 ++ " in log does not match expected " ++ toString (i + 1))

/-- Field-wise textual substitution over a witness entry. -/
def witnessEntryReplace (pat rep : String) (w : WitnessEntry) : WitnessEntry :=
  { id := replaceAllStr w.id pat rep, weight := w.weight }

/-- Field-wise textual substitution over a witness parameter. -/
def witnessParamReplace (pat rep : String) (w : WitnessParameter) : WitnessParameter :=
  { threshold := w.threshold, witnesses := w.witnesses.map (witnessEntryReplace pat rep) }

/-- Model of `JSON.parse(JSON.stringify(parameters).replaceAll(pat,
rep))`: the substitution applied to every string value of the
parameters object (the substituted tokens, an SCID value or the SCID
placeholder, contain no JSON structural characters, so the textual
replacement acts exactly on the string values). -/
def paramsReplace (pat rep : String) (p : DIDParameters) : DIDParameters :=
  { method := p.method.map (fun s => replaceAllStr s pat rep)
    scid := p.scid.map (fun s => replaceAllStr s pat rep)
    updateKeys := p.updateKeys.map (List.map (fun s => replaceAllStr s pat rep))
    nextKeyHashes := p.nextKeyHashes.map (List.map (fun s => replaceAllStr s pat rep))
    portable := p.portable
    witness := p.witness.map (Option.map (witnessParamReplace pat rep))
    witnesses := p.witnesses.map (List.map (witnessEntryReplace pat rep))
    witnessThreshold := p.witnessThreshold
    deactivated := p.deactivated }

/-- Field-wise textual substitution over a service endpoint. -/
def serviceReplace (pat rep : String) (s : ServiceEndpoint) : ServiceEndpoint :=
  { id := replaceAllStr s.id pat rep
    type := replaceAllStr s.type pat rep
    serviceEndpoint := replaceAllStr s.serviceEndpoint pat rep }

/-- Model of `JSON.parse(JSON.stringify(state).replaceAll(pat, rep))`. -/
def docReplace (pat rep : String) (d : DIDDoc) : DIDDoc :=
  { id := replaceAllStr d.id pat rep
    service := d.service.map (serviceReplace pat rep) }

/-- The pre-SCID form of the first entry built by resolveDIDFromLog
(method.ts lines 140-145): versionId set to the placeholder,
versionTime set to the recorded creation time, and every textual
occurrence of the SCID value in parameters and state replaced by the
placeholder.  The source object has no `proof` key, rendered here as
`proof := []`. -/
def preScidEntry (e : DIDLogEntry) (scid created : String) : DIDLogEntry :=
  { versionId := PLACEHOLDER
    versionTime := created
    parameters := paramsReplace scid PLACEHOLDER e.parameters
    state := docReplace scid PLACEHOLDER e.state
    proof := [] }

/-- The re-substituted first entry (method.ts line 151): every
occurrence of the placeholder replaced back by the SCID. -/
def resubstitutedEntry (scid : String) (pre : DIDLogEntry) : DIDLogEntry :=
  { versionId := replaceAllStr pre.versionId PLACEHOLDER scid
    versionTime := pre.versionTime
    parameters := paramsReplace PLACEHOLDER scid pre.parameters
    state := docReplace PLACEHOLDER scid pre.state
    proof := [] }

/-- getBaseUrl from src/utils.ts: reject identifiers that do not start
with `did:webvh:` or have fewer than four colon segments, then build
the base URL from the remaining segments.  Percent-decoding, IDN
punycode and NFC normalization of the host delegate to runtime URL
primitives and are modelled as the identity. -/
def getBaseUrl (id : String) : Except String String :=
  let parts := splitStr ':' id
  if !(strStartsWith id "did:webvh:") || parts.length < 4 then
    .error (id ++ " is not a valid did:webvh identifier")
  else
    let remainder := joinWith "/" (parts.drop 3)
    let protocol := if strContainsSub remainder "localhost" then "http" else "https"
    .ok (protocol ++ "://" ++ remainder)

/-- Default-service materialization of the resolver (method.ts lines
207-226): push `#files` and `#whois` services when absent. -/
def finalizeDoc (newDoc : DIDDoc) : Except String DIDDoc :=
  match getBaseUrl newDoc.id with
  | .error e => .error e
  | .ok baseUrl =>
    let svc := newDoc.service
    let svc := if svc.any (fun s => s.id == "#files") then svc
      else svc ++ [{ id := "#files", type := "relativeRef", serviceEndpoint := baseUrl }]
    let svc := if svc.any (fun s => s.id == "#whois") then svc
      else svc ++ [{ id := "#whois", type := "LinkedVerifiablePresentation",
                     serviceEndpoint := baseUrl ++ "/whois.vp" }]
    .ok { newDoc with service := svc }

/-- The portability gate of the resolver (method.ts lines 159-164):
with portability disabled a changed host is fatal, otherwise the
tracked host is updated.  Returns the host tracked after the entry. -/
def portabilityGate (portable : Bool) (host newHost : String) : Except String String :=
  if !portable && newHost != host then
    .error "Cannot move DID: portability is disabled"
  else if newHost != host then .ok newHost
  else .ok host

/-- The parameter transitions applied after the gates of an entry with
version number above one (method.ts lines 182-202): updateKeys
replacement, the deactivated latch, nextKeyHashes replacement (an
absent key clears pre-rotation; note a present empty list still sets
it, matching JavaScript truthiness of `[]`), and the witness
replacement with the `'witness' in parameters` / `parameters.witnesses`
fallback. -/
def applyParamTransitions (m : DIDResolutionMeta) (p : DIDParameters) : DIDResolutionMeta :=
  let m := match p.updateKeys with
    | some l => { m with updateKeys := some l }
    | none => m
  let m := if p.deactivated = some true then { m with deactivated := true } else m
  let m := match p.nextKeyHashes with
    | some l => { m with nextKeyHashes := l, prerotation := true }
    | none => { m with nextKeyHashes := [], prerotation := false }
  match p.witness with
  | some w => { m with witness := w }
  | none =>
    match p.witnesses with
    | some ws =>
      let thr := match p.witnessThreshold with
        | some t => if t != 0 then t else ws.length
        | none => ws.length
      { m with witness := some { threshold := thr, witnesses := ws } }
    | none => m

/-- The version selectors of the resolver (method.ts line 232): an
entry is returned early when its parsed version number or its stored
versionId matches the requested one. -/
def selectorHit (opts : ResolutionOptions) (version : String) (meta : DIDResolutionMeta) : Bool :=
  (match opts.versionNumber, parseIntJS version with
   | some k, some v => (k : Int) == v
   | _, _ => false)
  || (match opts.versionId with
      | some v => v == meta.versionId
      | none => false)

/-- The witness gate on the terminal entry (method.ts lines 243-255):
take the supplied witness proofs or fetch them, keep those whose
versionId equals the current one, and only when that filtered list is
non-empty run verifyWitnessProofs against the active witness
parameter. -/
def witnessGate (c : CryptoPrimitives) (opts : ResolutionOptions) (did : String)
    (e : DIDLogEntry) (meta : DIDResolutionMeta) : Except String Unit :=
  match meta.witness with
  | none => .ok ()
  | some cw =>
    let proofs := match opts.witnessProofs with
      | some ps => ps
      | none => c.fetchWitnessProofs did
    let validProofs := proofs.filter (fun wp => wp.versionId == meta.versionId)
    if validProofs.length > 0 then verifyWitnessProofs c e validProofs cw
    else .ok ()

/-- The mutable replay state of the resolver loop: the accumulated
metadata, the tracked host, and the current document and DID. -/
structure ReplayState where
  meta : DIDResolutionMeta
  host : String
  did : String
  doc : DIDDoc
deriving Repr

/-- Result triple of resolveDIDFromLog. -/
structure ResolutionResult where
  did : String
  doc : DIDDoc
  meta : DIDResolutionMeta
deriving DecidableEq, Repr

/-- Outcome of processing one entry: either continue the replay with an
updated state or return early with a result (version selectors). -/
inductive StepOutcome where
  | next (st : ReplayState)
  | done (r : ResolutionResult)
deriving Repr

/-- The tail of the loop body shared by both branches (method.ts lines
204-257): document finalization, the version selectors, and the witness
gate on the terminal entry. -/
def finalizePart (c : CryptoPrimitives) (opts : ResolutionOptions) (total i : Nat)
    (meta : DIDResolutionMeta) (host version : String) (e : DIDLogEntry) :
    Except String StepOutcome :=
  match finalizeDoc e.state with
  | .error err => .error err
  | .ok doc =>
    let did := doc.id
    if selectorHit opts version meta then .ok (.done { did := did, doc := doc, meta := meta })
    else if meta.witness.isSome && i == total - 1 then
      match witnessGate c opts did e meta with
      | .error err => .error err
      | .ok _ => .ok (.next { meta := meta, host := host, did := did, doc := doc })
    else .ok (.next { meta := meta, host := host, did := did, doc := doc })

/-- The `version === '1'` branch of the resolver loop (method.ts lines
129-156): capture scid, portability, update keys, pre-rotation
commitments and witness configuration; rebuild the pre-SCID entry and
check the SCID derivation; re-substitute and verify the entry proof
with the injected verifier.  documentStateIsValid either throws or
returns true, so the `if (!verified)` guard of the source never fires
and errors surface directly from the capability. -/
def processFirstEntry (c : CryptoPrimitives) (opts : ResolutionOptions) (total i : Nat)
    (meta1 : DIDResolutionMeta) (version : String) (e : DIDLogEntry) :
    Except String StepOutcome :=
  let newDoc := e.state
  let host := lastColonSeg newDoc.id
  let scidStr := e.parameters.scid.getD "undefined"
  let meta2 := { meta1 with
    created := e.versionTime
    scid := scidStr
    portable := e.parameters.portable.getD meta1.portable
    updateKeys := e.parameters.updateKeys
    nextKeyHashes := e.parameters.nextKeyHashes.getD []
    prerotation := !(e.parameters.nextKeyHashes.getD []).isEmpty
    witness := match e.parameters.witness with
      | some (some w) => some w
      | _ => meta1.witness }
  let pre := preScidEntry e scidStr meta2.created
  match deriveHash c pre with
  | .error err => .error err
  | .ok logEntryHash =>
    let meta3 := { meta2 with previousLogEntryHash := logEntryHash }
    if !(scidIsFromHash meta3.scid logEntryHash) then
      .error ("SCID " ++ meta3.scid ++ " not derived from logEntryHash " ++ logEntryHash)
    else
      let prelim := resubstitutedEntry meta3.scid pre
      match deriveHash c prelim with
      | .error err => .error err
      | .ok h2 =>
        match c.docStateValid { prelim with versionId := "1-" ++ h2, proof := e.proof }
            meta3.updateKeys meta3.witness with
        | .error err => .error err
        | .ok _ => finalizePart c opts total i meta3 host version e

/-- The branch of the resolver loop for version numbers above one
(method.ts lines 157-202): portability gate, key-set selection under
pre-rotation, proof verification, the hash-chain comparison, the
pre-rotation compliance check, and the parameter transitions. -/
def processLaterEntry (c : CryptoPrimitives) (opts : ResolutionOptions) (total i : Nat)
    (meta1 : DIDResolutionMeta) (host version entryHash : String) (e : DIDLogEntry) :
    Except String StepOutcome :=
  let newDoc := e.state
  let newHost := lastColonSeg newDoc.id
  match portabilityGate meta1.portable host newHost with
  | .error err => .error err
  | .ok host' =>
    let keys := if meta1.prerotation then e.parameters.updateKeys else meta1.updateKeys
    match c.docStateValid e keys meta1.witness with
    | .error err => .error err
    | .ok _ =>
      if !(hashChainValid (toString (i + 1) ++ "-" ++ entryHash) e.versionId) then
        .error ("Hash chain broken at " ++ meta1.versionId)
      else
        match (if meta1.prerotation then
            newKeysAreInNextKeys c (e.parameters.updateKeys.getD []) meta1.nextKeyHashes
          else .ok true) with
        | .error err => .error err
        | .ok _ =>
          let meta2 := applyParamTransitions meta1 e.parameters
          finalizePart c opts total i meta2 host' version e

/-- One iteration of the resolver loop: the version-number check, the
shared metadata updates, then the branch on `version === '1'`. -/
def processEntry (c : CryptoPrimitives) (opts : ResolutionOptions) (total i : Nat)
    (st : ReplayState) (e : DIDLogEntry) : Except String StepOutcome :=
  match versionNumberCheck i e.versionId with
  | .error err => .error err
  | .ok vp =>
    let meta1 := { st.meta with versionId := e.versionId, updated := e.versionTime }
    if vp.1 == "1" then processFirstEntry c opts total i meta1 vp.1 e
    else processLaterEntry c opts total i meta1 st.host vp.1 vp.2 e

/-- The `while (i < resolutionLog.length)` loop of resolveDIDFromLog. -/
def resolveLoop (c : CryptoPrimitives) (opts : ResolutionOptions) (total : Nat) :
    Nat → ReplayState → List DIDLogEntry → Except String ResolutionResult
  | _, st, [] => .ok { did := st.did, doc := st.doc, meta := st.meta }
  | i, st, e :: rest =>
    match processEntry c opts total i st e with
    | .error err => .error err
    | .ok (.done r) => .ok r
    | .ok (.next st') => resolveLoop c opts total (i + 1) st' rest

/-- Initial replay state of resolveDIDFromLog: default metadata, empty
host and an empty document. -/
def initialReplayState : ReplayState :=
  { meta := {}, host := "", did := "", doc := { id := "", service := [] } }

/-- resolveDIDFromLog from src/method.ts: check the protocol tag of the
first entry, then replay the whole log.  An empty log fails when the
source dereferences `resolutionLog[0].parameters`. -/
def resolveDIDFromLog (c : CryptoPrimitives) (opts : ResolutionOptions)
    (log : List DIDLogEntry) : Except String ResolutionResult :=
  match log with
  | [] => .error "Cannot read parameters of an empty log"
  | e0 :: _ =>
    if e0.parameters.method.getD "undefined" != PROTOCOL then
      .error (e0.parameters.method.getD "undefined" ++ " protocol unknown")
    else resolveLoop c opts log.length 0 initialReplayState log

/-- updateDID from src/method.ts (lines 263-269): replay the log to
obtain the current metadata and reject a deactivated DID before any new
entry is constructed.  The remainder of the operation (document
assembly, hashing, signing, self-verification and append) is the
continuation `rest`, which is only reached when the check passes. -/
def updateDID (c : CryptoPrimitives)
    (rest : ResolutionResult → Except String (List DIDLogEntry))
    (log : List DIDLogEntry) : Except String (List DIDLogEntry) :=
  match resolveDIDFromLog c {} log with
  | .error err => .error err
  | .ok r =>
    if r.meta.deactivated then .error "Cannot update deactivated DID"
    else rest r

/-! ## Auxiliary definitions used by the theorems -/

deriving instance DecidableEq for Except

/-- Whether an `Except` value is a success. -/
def isOkE {ε α : Type} : Except ε α → Bool
  | .ok _ => true
  | .error _ => false

/-- Modelled from the spec: the pre-hash form of a log entry at
position `n` described by the hash-chain gate of the spec ("canonicalize
the current entry with its versionId replaced by the in-situ pre-hash
form"), used to state what hash the resolver would have to recompute.
The resolver under `src/` never builds this entry for positions above
one. -/
def specPreHashEntry (n : Nat) (e : DIDLogEntry) : DIDLogEntry :=
  { e with versionId := toString n ++ "-", proof := [] }

/-- Ids of the authorized witnesses matched, in order, by a proof list
(one occurrence per proof whose verification method extends a declared
witness id). -/
def matchedWitnessIds (cw : WitnessParameter) (ps : List DataIntegrityProof) : List String :=
  ps.filterMap (fun p =>
    (cw.witnesses.find? (fun w => strStartsWith p.verificationMethod w.id)).map (fun w => w.id))

/-- Number of ids in the list not already in `seen`, counting each new
id once (the approval count of the witness-proof loop). -/
def countNewIds (seen : List String) : List String → Nat
  | [] => 0
  | i :: rest =>
    if seen.contains i then countNewIds seen rest
    else countNewIds (i :: seen) rest + 1

/-- The seen-set after processing a list of ids. -/
def seenAfterIds (seen : List String) : List String → List String
  | [] => seen
  | i :: rest =>
    if seen.contains i then seenAfterIds seen rest
    else seenAfterIds (i :: seen) rest

/-! ## Concrete fixtures for the evaluation theorems

The crypto capabilities are instantiated with a constant 32-byte
digest, an accepting document verifier and an accepting witness
signature check; this exercises exactly the control flow of the
resolver core that the claims are about. -/

/-- Concrete capability instance: constant SHA-256 digest, accepting
proof verification. -/
def testCrypto : CryptoPrimitives :=
  { sha := fun _ => List.replicate 32 0
    canon := fun _ => ""
    docStateValid := fun _ _ _ => .ok ()
    witnessSigOk := fun _ _ => true
    fetchWitnessProofs := fun _ => [] }

/-- The hash every `deriveHash` and `deriveNextKeyHash` call computes
under `testCrypto`: base58btc of the sha2-256 multihash of the constant
digest. -/
def specH0 : String := encodeBase58Btc (18 :: 32 :: List.replicate 32 0)

/-- A well-formed first log entry under `testCrypto`: its scid is the
hash the resolver derives, so the SCID gate passes. -/
def entryOne : DIDLogEntry :=
  { versionId := "1-" ++ specH0
    versionTime := "2024-01-01T08:32:55Z"
    parameters := { method := some PROTOCOL, scid := some specH0,
                    updateKeys := some ["did:key:zKey1"], portable := some false }
    state := { id := "did:webvh:" ++ specH0 ++ ":example.com" }
    proof := [] }

/-- A second entry that sets `deactivated: true`. -/
def entryTwoDeact : DIDLogEntry :=
  { versionId := "2-" ++ specH0
    versionTime := "2024-02-01T08:32:55Z"
    parameters := { deactivated := some true }
    state := { id := "did:webvh:" ++ specH0 ++ ":example.com" }
    proof := [] }

/-- A third entry appended after the deactivating one. -/
def entryThree : DIDLogEntry :=
  { versionId := "3-" ++ specH0
    versionTime := "2024-03-01T08:32:55Z"
    parameters := {}
    state := { id := "did:webvh:" ++ specH0 ++ ":example.com" }
    proof := [] }

/-- A second entry whose versionId hash part is the arbitrary string
"bogus", unrelated to any hash of its contents. -/
def entryTwoBogus : DIDLogEntry :=
  { versionId := "2-bogus"
    versionTime := "2024-02-01T08:32:55Z"
    parameters := {}
    state := { id := "did:webvh:" ++ specH0 ++ ":example.com" }
    proof := [] }

/-- A first entry whose scid is not the derived hash. -/
def entryOneBadScid : DIDLogEntry :=
  { entryOne with parameters := { entryOne.parameters with scid := some "badscid" } }

/-- A single-witness configuration with threshold 1. -/
def cwOne : WitnessParameter :=
  { threshold := 1, witnesses := [{ id := "did:key:zW1", weight := 1 }] }

/-- A first entry declaring the witness configuration `cwOne`. -/
def entryOneWitness : DIDLogEntry :=
  { entryOne with parameters := { entryOne.parameters with witness := some (some cwOne) } }

/-- A witness proof whose verification method extends the declared
witness id. -/
def proofW1 : DataIntegrityProof :=
  { verificationMethod := "did:key:zW1#zW1" }

/-- A first entry committing to one next-key hash. -/
def entryOnePrerotation : DIDLogEntry :=
  { entryOne with parameters := { entryOne.parameters with nextKeyHashes := some [specH0] } }

/-- A second entry rotating to a fresh update key; under `testCrypto`
its hash is `specH0`, honouring the commitment of
`entryOnePrerotation`. -/
def entryTwoRotated : DIDLogEntry :=
  { versionId := "2-" ++ specH0
    versionTime := "2024-02-01T08:32:55Z"
    parameters := { updateKeys := some ["did:key:zKey2"] }
    state := { id := "did:webvh:" ++ specH0 ++ ":example.com" }
    proof := [] }

/-- A witness configuration fixture for the validator theorem. -/
def cwValid : WitnessParameter :=
  { threshold := 2
    witnesses := [{ id := "did:key:zA", weight := 1 }, { id := "did:key:zB", weight := 1 }] }

/-! ## Lemmas about the base-digit expansion -/

theorem natBEAux_fuel_zero (base f : Nat) : natBEAux base f 0 = [] := by
  cases f <;> rfl

theorem natBEAux_fuel_agnostic (base : Nat) (hb : 2 ≤ base) :
    ∀ n f1 f2, n ≤ f1 → n ≤ f2 → natBEAux base f1 n = natBEAux base f2 n := by
  intro n
  induction n using Nat.strong_induction_on with
  | _ n ih =>
    intro f1 f2 h1 h2
    match n with
    | 0 => rw [natBEAux_fuel_zero, natBEAux_fuel_zero]
    | m + 1 =>
      match f1, f2, h1, h2 with
      | g1 + 1, g2 + 1, h1, h2 =>
        have hq : (m + 1) / base < m + 1 := Nat.div_lt_self (Nat.succ_pos m) (by omega)
        show natBEAux base g1 ((m + 1) / base) ++ [(m + 1) % base] =
          natBEAux base g2 ((m + 1) / base) ++ [(m + 1) % base]
        rw [ih ((m + 1) / base) hq g1 g2 (by omega) (by omega)]

theorem natBE_succ (base n : Nat) (hb : 2 ≤ base) (hn : 0 < n) :
    natBE base n = natBE base (n / base) ++ [n % base] := by
  match n, hn with
  | m + 1, _ =>
    have hq : (m + 1) / base < m + 1 := Nat.div_lt_self (Nat.succ_pos m) (by omega)
    show natBEAux base m ((m + 1) / base) ++ [(m + 1) % base] = _
    rw [natBEAux_fuel_agnostic base hb ((m + 1) / base) m ((m + 1) / base) (by omega) (le_refl _)]
    rfl

theorem natBE_foldl (base : Nat) (hb : 2 ≤ base) :
    ∀ n a, (natBE base n).foldl (fun x d => x * base + d) a =
      a * base ^ (natBE base n).length + n := by
  intro n
  induction n using Nat.strong_induction_on with
  | _ n ih =>
    intro a
    match n with
    | 0 => simp [natBE, natBEAux]
    | m + 1 =>
      have hq : (m + 1) / base < m + 1 := Nat.div_lt_self (Nat.succ_pos m) (by omega)
      rw [natBE_succ base (m + 1) hb (Nat.succ_pos m)]
      rw [List.foldl_append, ih _ hq a]
      simp only [List.length_append, List.foldl_cons, List.foldl_nil, List.length_cons,
        List.length_nil, Nat.zero_add]
      have key : (m + 1) / base * base + (m + 1) % base = m + 1 := by
        have h := Nat.div_add_mod (m + 1) base
        rw [Nat.mul_comm] at h
        exact h
      calc (a * base ^ (natBE base ((m + 1) / base)).length + (m + 1) / base) * base +
            (m + 1) % base
          = a * (base ^ (natBE base ((m + 1) / base)).length * base) +
            ((m + 1) / base * base + (m + 1) % base) := by ring
        _ = a * base ^ ((natBE base ((m + 1) / base)).length + 1) + (m + 1) := by
            rw [key, pow_succ]

theorem natBE_head_ne_zero (base : Nat) (hb : 2 ≤ base) :
    ∀ n, 0 < n → ∃ d t, natBE base n = d :: t ∧ d ≠ 0 := by
  intro n
  induction n using Nat.strong_induction_on with
  | _ n ih =>
    intro hn
    rw [natBE_succ base n hb hn]
    by_cases hq : n / base = 0
    · refine ⟨n % base, [], ?_, ?_⟩
      · rw [hq]; rfl
      · have hnb : n < base := by
          rcases Nat.lt_or_ge n base with h | h
          · exact h
          · exact absurd hq (by
              have h1 : 1 ≤ n / base := (Nat.le_div_iff_mul_le (by omega)).2 (by omega)
              omega)
        rw [Nat.mod_eq_of_lt hnb]
        omega
    · have hlt : n / base < n := Nat.div_lt_self hn (by omega)
      obtain ⟨d, t, hdt, hd⟩ := ih (n / base) hlt (Nat.pos_of_ne_zero hq)
      exact ⟨d, t ++ [n % base], by rw [hdt]; rfl, hd⟩

theorem natBE_lt_base (base : Nat) (hb : 2 ≤ base) :
    ∀ n d, d ∈ natBE base n → d < base := by
  intro n
  induction n using Nat.strong_induction_on with
  | _ n ih =>
    intro d hd
    match n with
    | 0 => simp [natBE, natBEAux] at hd
    | m + 1 =>
      rw [natBE_succ base (m + 1) hb (Nat.succ_pos m)] at hd
      rcases List.mem_append.1 hd with h | h
      · exact ih _ (Nat.div_lt_self (Nat.succ_pos m) (by omega)) d h
      · simp at h
        subst h
        exact Nat.mod_lt _ (by omega)

theorem foldl_byte_pos (base : Nat) (hb : 1 ≤ base) :
    ∀ (t : List Nat) (a : Nat), 0 < a → 0 < t.foldl (fun x d => x * base + d) a := by
  intro t
  induction t with
  | nil => intro a ha; simpa using ha
  | cons d t ih =>
    intro a ha
    simp only [List.foldl_cons]
    exact ih _ (by nlinarith)

theorem natBE_of_foldl (base : Nat) (hb : 2 ≤ base) :
    ∀ L : List Nat, (∀ b ∈ L, b < base) → L ≠ [] → L.headD 0 ≠ 0 →
      natBE base (L.foldl (fun x d => x * base + d) 0) = L := by
  intro L
  induction L using List.reverseRecOn with
  | nil => intro _ h _; exact absurd rfl h
  | append_singleton l d ih =>
    intro hlt _ hhead
    rcases l with _ | ⟨h, t⟩
    · have hd : d ≠ 0 := by simpa using hhead
      have hdb : d < base := hlt d (by simp)
      simp only [List.nil_append, List.foldl_cons, List.foldl_nil, Nat.zero_mul, Nat.zero_add]
      rw [natBE_succ base d hb (Nat.pos_of_ne_zero hd), Nat.div_eq_of_lt hdb,
        Nat.mod_eq_of_lt hdb, natBE]
      rfl
    · have hh : h ≠ 0 := by simpa using hhead
      have hfold : ((h :: t) ++ [d]).foldl (fun x d => x * base + d) 0 =
          ((h :: t).foldl (fun x d => x * base + d) 0) * base + d := by
        rw [List.foldl_append]; rfl
      set N := (h :: t).foldl (fun x d => x * base + d) 0 with hN
      have hNpos : 0 < N := by
        rw [hN]
        simp only [List.foldl_cons, Nat.zero_mul, Nat.zero_add]
        exact foldl_byte_pos base (by omega) t h (Nat.pos_of_ne_zero hh)
      have hdb : d < base := hlt d (by simp)
      rw [hfold, natBE_succ base (N * base + d) hb (by positivity)]
      have hdiv : (N * base + d) / base = N := by
        rw [Nat.add_comm, Nat.add_mul_div_right d N (by omega : 0 < base),
          Nat.div_eq_of_lt hdb, Nat.zero_add]
      have hmod : (N * base + d) % base = d := by
        rw [Nat.add_comm, Nat.add_mul_mod_self_right, Nat.mod_eq_of_lt hdb]
      have hsub : ∀ b ∈ h :: t, b ∈ h :: t ++ [d] := by
        intro b hb'
        simp only [List.mem_cons, List.mem_append, List.mem_singleton] at hb' ⊢
        tauto
      rw [hdiv, hmod, ih (fun b hb' => hlt b (hsub b hb')) (by simp) (by simpa using hh)]

/-! ## List and alphabet lemmas for the base58 round trip -/

theorem mem_takeWhile_pred {α : Type} (p : α → Bool) :
    ∀ (l : List α) (a : α), a ∈ l.takeWhile p → p a = true := by
  intro l
  induction l with
  | nil => intro a h; simp [List.takeWhile] at h
  | cons x xs ih =>
    intro a h
    by_cases hx : p x = true
    · rw [List.takeWhile_cons, if_pos hx] at h
      rcases List.mem_cons.1 h with h | h
      · rwa [h]
      · exact ih a h
    · rw [List.takeWhile_cons, if_neg hx] at h
      simp at h

theorem drop_takeWhile_length {α : Type} (p : α → Bool) :
    ∀ l : List α, l.drop (l.takeWhile p).length = l.dropWhile p := by
  intro l
  induction l with
  | nil => rfl
  | cons x xs ih =>
    by_cases hx : p x = true
    · rw [List.takeWhile_cons, if_pos hx, List.dropWhile_cons, if_pos hx,
        List.length_cons, List.drop_succ_cons]
      exact ih
    · rw [List.takeWhile_cons, if_neg hx, List.dropWhile_cons, if_neg hx]
      rfl

theorem dropWhile_head_false {α : Type} (p : α → Bool) :
    ∀ (l : List α) (c : α) (cs : List α), l.dropWhile p = c :: cs → p c = false := by
  intro l
  induction l with
  | nil => intro c cs h; simp [List.dropWhile] at h
  | cons x xs ih =>
    intro c cs h
    by_cases hx : p x = true
    · rw [List.dropWhile_cons, if_pos hx] at h
      exact ih c cs h
    · rw [List.dropWhile_cons, if_neg hx] at h
      cases h
      exact Bool.eq_false_iff.2 hx

theorem mem_dropWhile {α : Type} (p : α → Bool) :
    ∀ (l : List α) (a : α), a ∈ l.dropWhile p → a ∈ l := by
  intro l
  induction l with
  | nil => intro a h; simp [List.dropWhile] at h
  | cons x xs ih =>
    intro a h
    by_cases hx : p x = true
    · rw [List.dropWhile_cons, if_pos hx] at h
      exact List.mem_cons_of_mem x (ih a h)
    · rw [List.dropWhile_cons, if_neg hx] at h
      exact h

theorem takeWhile_replicate_append {α : Type} (p : α → Bool) (a : α) (hpa : p a = true) :
    ∀ (z : Nat) (l : List α), (l = [] ∨ ∃ c t, l = c :: t ∧ p c = false) →
      (List.replicate z a ++ l).takeWhile p = List.replicate z a := by
  intro z
  induction z with
  | zero =>
    intro l hl
    rcases hl with h | ⟨c, t, hct, hc⟩
    · subst h; rfl
    · subst hct
      show ([] ++ c :: t).takeWhile p = []
      rw [List.nil_append, List.takeWhile_cons, if_neg (by simp [hc])]
  | succ n ih =>
    intro l hl
    rw [List.replicate_succ, List.cons_append, List.takeWhile_cons, if_pos hpa, ih l hl]

theorem foldl_replicate_zero (base : Nat) :
    ∀ z : Nat, (List.replicate z 0).foldl (fun x d => x * base + d) 0 = 0 := by
  intro z
  induction z with
  | zero => rfl
  | succ n ih => simpa [List.replicate_succ] using ih

theorem b58Index_b58Char : ∀ d : Nat, d < 58 → b58Index (b58Char d) = some d := by decide

theorem b58Char_ne_one : ∀ d : Nat, d < 58 → d ≠ 0 → (b58Char d == '1') = false := by decide

theorem b58Fold_map (ds : List Nat) (hlt : ∀ d ∈ ds, d < 58) :
    ∀ a, b58Fold a (ds.map b58Char) = .ok (ds.foldl (fun x d => x * 58 + d) a) := by
  induction ds with
  | nil => intro a; rfl
  | cons d ds ih =>
    intro a
    have hd : d < 58 := hlt d (List.mem_cons_self d ds)
    show b58Fold a (b58Char d :: ds.map b58Char) = _
    rw [b58Fold, b58Index_b58Char d hd]
    exact ih (fun x hx => hlt x (List.mem_cons_of_mem d hx)) (a * 58 + d)

theorem b58Fold_bad_char :
    ∀ (l : List Char) (a : Nat), (∃ c ∈ l, b58Index c = none) →
      ∃ msg, b58Fold a l = .error msg := by
  intro l
  induction l with
  | nil => intro a h; simp at h
  | cons x xs ih =>
    intro a h
    rcases h with ⟨c, hc, hnone⟩
    rcases List.mem_cons.1 hc with rfl | hmem
    · exact ⟨_, by rw [b58Fold, hnone]⟩
    · show ∃ msg, b58Fold a (x :: xs) = .error msg
      rw [b58Fold]
      cases hx : b58Index x with
      | some v => exact ih _ ⟨c, hmem, hnone⟩
      | none => exact ⟨_, rfl⟩

theorem data_mk (l : List Char) : (String.mk l).data = l := rfl

theorem drop_replicate_self {α : Type} (z : Nat) (a : α) :
    (List.replicate z a).drop z = [] := by
  have h := List.drop_length (List.replicate z a)
  rwa [List.length_replicate] at h

theorem drop_replicate_append {α : Type} (z : Nat) (a : α) (l : List α) :
    (List.replicate z a ++ l).drop z = l := by
  have h := List.drop_left (List.replicate z a) l
  rwa [List.length_replicate] at h

theorem decodeBase58Btc_def (s : String) :
    decodeBase58Btc s =
      match b58Fold 0 (s.data.drop (s.data.takeWhile (fun c => c == '1')).length) with
      | .error e => .error e
      | .ok num =>
        .ok (List.replicate (s.data.takeWhile (fun c => c == '1')).length 0 ++ natBE 256 num) :=
  rfl

theorem base58_enc_dec (bytes : List Nat) (hlt : ∀ b ∈ bytes, b < 256) :
    decodeBase58Btc (encodeBase58Btc bytes) = .ok bytes ∧
    ((encodeBase58Btc bytes).data.takeWhile (fun c => c == '1')).length =
      (bytes.takeWhile (fun b => b == 0)).length := by
  have htw : bytes.takeWhile (fun b => b == 0) =
      List.replicate (bytes.takeWhile (fun b : Nat => b == 0)).length 0 := by
    refine List.eq_replicate_of_mem ?_
    intro b hb
    have := mem_takeWhile_pred (fun b : Nat => b == 0) bytes b hb
    simpa using this
  have hsplit : bytes = List.replicate (bytes.takeWhile (fun b : Nat => b == 0)).length 0 ++
      bytes.dropWhile (fun b => b == 0) := by
    conv_lhs => rw [← List.takeWhile_append_dropWhile (p := fun b : Nat => b == 0) (l := bytes)]
    rw [← htw]
  have hnum : bytes.foldl (fun a b => a * 256 + b) 0 =
      (bytes.dropWhile (fun b => b == 0)).foldl (fun a b => a * 256 + b) 0 := by
    conv_lhs => rw [hsplit]
    rw [List.foldl_append, foldl_replicate_zero]
  have henc : encodeBase58Btc bytes =
      String.mk (List.replicate (bytes.takeWhile (fun b : Nat => b == 0)).length '1' ++
        (natBE 58 ((bytes.dropWhile (fun b => b == 0)).foldl
          (fun a b => a * 256 + b) 0)).map b58Char) := by
    show String.mk (List.replicate (bytes.takeWhile (fun b : Nat => b == 0)).length '1' ++
      (natBE 58 (bytes.foldl (fun a b => a * 256 + b) 0)).map b58Char) = _
    rw [hnum]
  cases htl : bytes.dropWhile (fun b : Nat => b == 0) with
  | nil =>
    rw [htl] at henc hsplit
    rw [List.append_nil] at hsplit
    have hdata : (encodeBase58Btc bytes).data =
        List.replicate (bytes.takeWhile (fun b : Nat => b == 0)).length '1' := by
      rw [henc, data_mk]
      show List.replicate _ '1' ++ (natBE 58 0).map b58Char = _
      rw [natBE]
      simp [natBEAux_fuel_zero]
    have htake : ((encodeBase58Btc bytes).data.takeWhile (fun c => c == '1')) =
        List.replicate (bytes.takeWhile (fun b : Nat => b == 0)).length '1' := by
      rw [hdata]
      have := takeWhile_replicate_append (fun c : Char => c == '1') '1' rfl
        (bytes.takeWhile (fun b : Nat => b == 0)).length [] (Or.inl rfl)
      rwa [List.append_nil] at this
    constructor
    · rw [decodeBase58Btc_def, htake, List.length_replicate, hdata, drop_replicate_self]
      show Except.ok (List.replicate _ 0 ++ natBE 256 0) = _
      rw [natBE, natBEAux_fuel_zero, List.append_nil]
      rw [← hsplit]
    · rw [htake, List.length_replicate]
  | cons h t =>
    have hh : h ≠ 0 := by
      have := dropWhile_head_false (fun b : Nat => b == 0) bytes h t htl
      simpa using this
    rw [htl] at henc hsplit
    have hnumpos : 0 < (h :: t).foldl (fun a b => a * 256 + b) 0 := by
      simp only [List.foldl_cons, Nat.zero_mul, Nat.zero_add]
      exact foldl_byte_pos 256 (by omega) t h (Nat.pos_of_ne_zero hh)
    obtain ⟨d, ds, hds, hdne⟩ :=
      natBE_head_ne_zero 58 (by omega) ((h :: t).foldl (fun a b => a * 256 + b) 0) hnumpos
    have hlt58 := natBE_lt_base 58 (by omega) ((h :: t).foldl (fun a b => a * 256 + b) 0)
    have hd58 : d < 58 := hlt58 d (by rw [hds]; exact List.mem_cons_self d ds)
    have hdata : (encodeBase58Btc bytes).data =
        List.replicate (bytes.takeWhile (fun b : Nat => b == 0)).length '1' ++
          (natBE 58 ((h :: t).foldl (fun a b => a * 256 + b) 0)).map b58Char := by
      rw [henc, data_mk]
    have htake : ((encodeBase58Btc bytes).data.takeWhile (fun c => c == '1')) =
        List.replicate (bytes.takeWhile (fun b : Nat => b == 0)).length '1' := by
      rw [hdata]
      refine takeWhile_replicate_append (fun c : Char => c == '1') '1' rfl _ _ ?_
      refine Or.inr ⟨b58Char d, ds.map b58Char, ?_, b58Char_ne_one d hd58 hdne⟩
      rw [hds]
      rfl
    constructor
    · rw [decodeBase58Btc_def, htake, List.length_replicate, hdata, drop_replicate_append]
      rw [b58Fold_map _ hlt58 0]
      rw [natBE_foldl 58 (by omega)]
      simp only [Nat.zero_mul, Nat.zero_add, List.length_replicate]
      have hrec : natBE 256 ((h :: t).foldl (fun a b => a * 256 + b) 0) = h :: t := by
        refine natBE_of_foldl 256 (by omega) (h :: t) ?_ (by simp) (by simpa using hh)
        intro b hb
        refine hlt b ?_
        refine mem_dropWhile (fun b : Nat => b == 0) bytes b ?_
        rw [htl]
        exact hb
      rw [hrec, ← hsplit]
    · rw [htake, List.length_replicate]

/-- C9: decodeBase58Btc is a left inverse of encodeBase58Btc on byte
arrays, each leading zero byte becoming a leading `'1'` character of
the encoding, and decodeBase58Btc fails on any input containing a
character outside the bitcoin base58 alphabet. -/
theorem base58btc_roundtrip :
    (∀ bytes : List Nat, (∀ b ∈ bytes, b < 256) →
      decodeBase58Btc (encodeBase58Btc bytes) = .ok bytes) ∧
    (∀ bytes : List Nat, (∀ b ∈ bytes, b < 256) →
      ((encodeBase58Btc bytes).data.takeWhile (fun c => c == '1')).length =
        (bytes.takeWhile (fun b => b == 0)).length) ∧
    (∀ s : String, (∃ c ∈ s.data, b58Index c = none) →
      ∃ msg, decodeBase58Btc s = .error msg) := by
  refine ⟨fun bytes h => (base58_enc_dec bytes h).1,
    fun bytes h => (base58_enc_dec bytes h).2, ?_⟩
  intro s hbad
  rcases hbad with ⟨c, hc, hnone⟩
  have hone : b58Index '1' = some 0 := by decide
  have hcne : (c == '1') = false := by
    cases hcc : c == '1'
    · rfl
    · exact absurd hnone (by rw [show c = '1' from by simpa using hcc, hone]; simp)
  have hcrest : c ∈ s.data.drop (s.data.takeWhile (fun c => c == '1')).length := by
    rw [drop_takeWhile_length]
    rcases List.mem_append.1
      (by rw [List.takeWhile_append_dropWhile (p := fun c : Char => c == '1') (l := s.data)]
          exact hc) with hmem | hmem
    · exact absurd (mem_takeWhile_pred _ _ _ hmem) (by rw [hcne]; simp)
    · exact hmem
  obtain ⟨msg, hmsg⟩ := b58Fold_bad_char _ 0 ⟨c, hcrest, hnone⟩
  refine ⟨msg, ?_⟩
  rw [decodeBase58Btc_def, hmsg]

/-- Closed witness for `base58btc_roundtrip`: the round trip and the
leading-zero preservation at a concrete byte array with leading zeros,
and a concrete rejection of a non-alphabet character. -/
theorem base58btc_roundtrip_witness :
    decodeBase58Btc (encodeBase58Btc [0, 0, 7, 255, 1]) = .ok [0, 0, 7, 255, 1] ∧
    (((encodeBase58Btc [0, 0, 7, 255, 1]).data.takeWhile (fun c => c == '1')).length =
      ([0, 0, 7, 255, 1].takeWhile (fun b : Nat => b == 0)).length) ∧
    (∃ msg, decodeBase58Btc "z0z" = .error msg) :=
  ⟨base58btc_roundtrip.1 [0, 0, 7, 255, 1] (by decide),
   base58btc_roundtrip.2.1 [0, 0, 7, 255, 1] (by decide),
   base58btc_roundtrip.2.2 "z0z" ⟨'0', by decide, by decide⟩⟩

/-! ## C10: the version-number check and parseInt -/

/-- C10: the version-number check of resolveDIDFromLog accepts an entry
exactly when `parseInt` of the substring before the first dash equals
the expected position `i + 1`; non-canonical numeric prefixes such as
"01" or "1abc" parse to the expected number and are accepted, and the
version-mismatch error fires only when the parsed value differs. -/
theorem versionNumberCheck_parseInt :
    (∀ (i : Nat) (vid : String),
      isOkE (versionNumberCheck i vid) = true ↔
        parseIntJS (versionParts vid).1 = some ((i : Int) + 1)) ∧
    parseIntJS "01" = some 1 ∧
    parseIntJS "1abc" = some 1 ∧
    versionNumberCheck 0 "01-hash" = .ok ("01", "hash") ∧
    versionNumberCheck 0 "1abc-hash" = .ok ("1abc", "hash") ∧
    isOkE (versionNumberCheck 1 "1-hash") = false := by
  refine ⟨?_, by decide, by decide, by decide, by decide, by decide⟩
  intro i vid
  by_cases h : parseIntJS (versionParts vid).1 = some ((i : Int) + 1)
  · simp [versionNumberCheck, h, isOkE]
  · simp [versionNumberCheck, h, isOkE]

/-- Closed witness for `versionNumberCheck_parseInt`: the acceptance
criterion applied at a concrete non-canonical prefix. -/
theorem versionNumberCheck_parseInt_witness :
    isOkE (versionNumberCheck 2 "03abc-zzz") = true :=
  (versionNumberCheck_parseInt.1 2 "03abc-zzz").mpr (by decide)

/-! ## C8: validateWitnessParameter -/

theorem containsStr_iff_mem (l : List String) (a : String) : l.contains a = true ↔ a ∈ l := by
  simp

theorem checkWitnessList_ok_iff :
    ∀ (l : List WitnessEntry) (seen : List String),
      checkWitnessList seen l = .ok () ↔
        ((∀ w ∈ l, strStartsWith w.id "did:key:" = true) ∧
         (l.map (fun w => w.id)).Nodup ∧
         (∀ w ∈ l, w.id ∉ seen)) := by
  intro l
  induction l with
  | nil =>
    intro seen
    simp [checkWitnessList]
  | cons w rest ih =>
    intro seen
    rw [checkWitnessList]
    by_cases h1 : strStartsWith w.id "did:key:" = true
    · rw [if_neg (by simp [h1])]
      by_cases h2 : seen.contains w.id = true
      · rw [if_pos h2]
        have hmem : w.id ∈ seen := (containsStr_iff_mem seen w.id).1 h2
        constructor
        · intro h; exact absurd h (by simp)
        · intro ⟨_, _, hns⟩
          exact absurd hmem (hns w (List.mem_cons_self w rest))
      · rw [if_neg h2]
        have hnmem : w.id ∉ seen := by
          intro hmem
          exact h2 ((containsStr_iff_mem seen w.id).2 hmem)
        rw [ih (w.id :: seen)]
        constructor
        · intro ⟨ha, hb, hc⟩
          refine ⟨?_, ?_, ?_⟩
          · intro x hx
            rcases List.mem_cons.1 hx with rfl | hx
            · exact h1
            · exact ha x hx
          · rw [List.map_cons, List.nodup_cons]
            refine ⟨?_, hb⟩
            intro hmem
            rcases List.mem_map.1 hmem with ⟨x, hx, hxid⟩
            exact hc x hx (by rw [hxid]; exact List.mem_cons_self _ _)
          · intro x hx
            rcases List.mem_cons.1 hx with rfl | hx
            · exact hnmem
            · intro hmem
              exact hc x hx (List.mem_cons_of_mem _ hmem)
        · intro ⟨ha, hb, hc⟩
          rw [List.map_cons, List.nodup_cons] at hb
          refine ⟨fun x hx => ha x (List.mem_cons_of_mem w hx), hb.2, ?_⟩
          intro x hx hmem
          rcases List.mem_cons.1 hmem with heq | hmem'
          · exact hb.1 (heq ▸ List.mem_map.2 ⟨x, hx, rfl⟩)
          · exact hc x (List.mem_cons_of_mem w hx) hmem'
    · rw [if_pos (by simp [h1])]
      constructor
      · intro h; exact absurd h (by simp)
      · intro ⟨ha, _, _⟩
        exact absurd (ha w (List.mem_cons_self w rest)) h1

/-- C8: validateWitnessParameter returns normally exactly when the
witness list is non-empty, every witness id starts with `did:key:`, the
ids are pairwise distinct, and the threshold lies between 1 and the
number of witnesses; the empty-list and threshold violations produce
the errors naming those conditions. -/
theorem validateWitnessParameter_iff :
    ∀ w : WitnessParameter,
      (validateWitnessParameter w = .ok () ↔
        (w.witnesses ≠ [] ∧
         (∀ x ∈ w.witnesses, strStartsWith x.id "did:key:" = true) ∧
         (w.witnesses.map (fun x => x.id)).Nodup ∧
         1 ≤ w.threshold ∧ w.threshold ≤ w.witnesses.length)) ∧
      (w.witnesses = [] →
        validateWitnessParameter w = .error "Witness list cannot be empty") ∧
      (w.witnesses ≠ [] → (w.threshold < 1 ∨ w.witnesses.length < w.threshold) →
        validateWitnessParameter w =
          .error "Witness threshold must be between 1 and the number of witnesses") := by
  intro w
  refine ⟨?_, ?_, ?_⟩
  · by_cases hemp : w.witnesses.isEmpty = true
    · rw [validateWitnessParameter, if_pos hemp]
      have : w.witnesses = [] := List.isEmpty_iff.1 hemp
      simp [this]
    · have hne : w.witnesses ≠ [] := fun h => hemp (by simp [h])
      by_cases hth : w.threshold < 1 || w.witnesses.length < w.threshold
      · rw [validateWitnessParameter, if_neg hemp, if_pos hth]
        simp only [Bool.or_eq_true, decide_eq_true_eq] at hth
        constructor
        · intro h; exact absurd h (by simp)
        · intro ⟨_, _, _, h4, h5⟩
          omega
      · rw [validateWitnessParameter, if_neg hemp, if_neg hth]
        simp only [Bool.or_eq_true, decide_eq_true_eq, not_or, Nat.not_lt] at hth
        rw [checkWitnessList_ok_iff]
        simp only [List.not_mem_nil, not_false_eq_true, implies_true, and_true]
        constructor
        · intro ⟨ha, hb⟩
          exact ⟨hne, ha, hb, hth.1, hth.2⟩
        · intro ⟨_, ha, hb, _, _⟩
          exact ⟨ha, hb⟩
  · intro h
    rw [validateWitnessParameter, if_pos (by simp [h])]
  · intro hne hth
    have hemp : ¬(w.witnesses.isEmpty = true) := by
      simpa [List.isEmpty_iff] using hne
    rw [validateWitnessParameter, if_neg hemp, if_pos (by
      simp only [Bool.or_eq_true, decide_eq_true_eq]
      omega)]

/-- Closed witness for `validateWitnessParameter_iff`: a valid witness
configuration is accepted. -/
theorem validateWitnessParameter_iff_witness :
    validateWitnessParameter cwValid = .ok () :=
  ((validateWitnessParameter_iff cwValid).1).mpr (by decide)

/-! ## C3: witness quorum counting -/

theorem matchedWitnessIds_cons (cw : WitnessParameter) (p : DataIntegrityProof)
    (ps : List DataIntegrityProof) :
    matchedWitnessIds cw (p :: ps) =
      match cw.witnesses.find? (fun w => strStartsWith p.verificationMethod w.id) with
      | some w => w.id :: matchedWitnessIds cw ps
      | none => matchedWitnessIds cw ps := by
  rw [matchedWitnessIds, List.filterMap_cons]
  cases cw.witnesses.find? (fun w => strStartsWith p.verificationMethod w.id) with
  | none => rfl
  | some w => rfl

theorem vwpFoldProofs_pass (c : CryptoPrimitives) (vid : String) (cw : WitnessParameter) :
    ∀ (ps : List DataIntegrityProof),
      (∀ p ∈ ps, p.cryptosuite = "eddsa-jcs-2022" ∧
        (cw.witnesses.find? (fun w => strStartsWith p.verificationMethod w.id)).isSome = true ∧
        c.witnessSigOk vid p = true) →
      ∀ (n : Nat) (seen : List String),
        vwpFoldProofs c vid cw (n, seen) ps =
          .ok (n + countNewIds seen (matchedWitnessIds cw ps),
               seenAfterIds seen (matchedWitnessIds cw ps)) := by
  intro ps
  induction ps with
  | nil =>
    intro _ n seen
    simp [vwpFoldProofs, matchedWitnessIds, countNewIds, seenAfterIds]
  | cons p ps ih =>
    intro hpass n seen
    obtain ⟨hcs, hfind, hsig⟩ := hpass p (List.mem_cons_self p ps)
    obtain ⟨w, hw⟩ := Option.isSome_iff_exists.1 hfind
    have hrest := fun q hq => hpass q (List.mem_cons_of_mem p hq)
    have hmat : matchedWitnessIds cw (p :: ps) = w.id :: matchedWitnessIds cw ps := by
      rw [matchedWitnessIds_cons, hw]
    have hstep : vwpStep c vid cw (n, seen) p =
        (if seen.contains w.id then .ok (n, seen) else .ok (n + 1, w.id :: seen)) := by
      simp [vwpStep, hcs, hw, hsig]
    rw [vwpFoldProofs, hstep, hmat]
    by_cases hcont : seen.contains w.id = true
    · rw [if_pos hcont]
      show vwpFoldProofs c vid cw (n, seen) ps = _
      rw [ih hrest n seen, countNewIds, if_pos hcont, seenAfterIds, if_pos hcont]
    · rw [if_neg hcont]
      show vwpFoldProofs c vid cw (n + 1, w.id :: seen) ps = _
      rw [ih hrest (n + 1) (w.id :: seen), countNewIds, if_neg hcont, seenAfterIds,
        if_neg hcont]
      have harith : n + 1 + countNewIds (w.id :: seen) (matchedWitnessIds cw ps) =
          n + (countNewIds (w.id :: seen) (matchedWitnessIds cw ps) + 1) := by omega
      rw [harith]

theorem vwpFoldProofs_append (c : CryptoPrimitives) (vid : String) (cw : WitnessParameter) :
    ∀ (l1 l2 : List DataIntegrityProof) (st : Nat × List String),
      vwpFoldProofs c vid cw st (l1 ++ l2) =
        match vwpFoldProofs c vid cw st l1 with
        | .error e => .error e
        | .ok st' => vwpFoldProofs c vid cw st' l2 := by
  intro l1
  induction l1 with
  | nil => intro l2 st; rfl
  | cons p l1 ih =>
    intro l2 st
    show vwpFoldProofs c vid cw st (p :: (l1 ++ l2)) = _
    rw [vwpFoldProofs, vwpFoldProofs]
    cases vwpStep c vid cw st p with
    | error e => rfl
    | ok st' => exact ih l2 st'

theorem vwpFoldSets_eq (c : CryptoPrimitives) (vid : String) (cw : WitnessParameter) :
    ∀ (ss : List WitnessProofFileEntry) (st : Nat × List String),
      vwpFoldSets c vid cw st ss =
        vwpFoldProofs c vid cw st (ss.flatMap (fun s => s.proof)) := by
  intro ss
  induction ss with
  | nil => intro st; rfl
  | cons s ss ih =>
    intro st
    rw [List.flatMap_cons, vwpFoldSets, vwpFoldProofs_append]
    cases vwpFoldProofs c vid cw st s.proof with
    | error e => rfl
    | ok st' => exact ih st'

theorem verifyWitnessProofs_pass (c : CryptoPrimitives) (e : DIDLogEntry)
    (wps : List WitnessProofFileEntry) (cw : WitnessParameter)
    (hpass : ∀ p ∈ wps.flatMap (fun s => s.proof),
      p.cryptosuite = "eddsa-jcs-2022" ∧
      (cw.witnesses.find? (fun w => strStartsWith p.verificationMethod w.id)).isSome = true ∧
      c.witnessSigOk e.versionId p = true) :
    (verifyWitnessProofs c e wps cw = .ok () ↔
      cw.threshold ≤ countNewIds [] (matchedWitnessIds cw (wps.flatMap (fun s => s.proof)))) ∧
    (countNewIds [] (matchedWitnessIds cw (wps.flatMap (fun s => s.proof))) < cw.threshold →
      verifyWitnessProofs c e wps cw =
        .error ("Witness threshold not met: got " ++
          toString (countNewIds [] (matchedWitnessIds cw (wps.flatMap (fun s => s.proof)))) ++
          ", need " ++ toString cw.threshold)) := by
  have hfold := vwpFoldProofs_pass c e.versionId cw (wps.flatMap (fun s => s.proof)) hpass 0 []
  have hvwp : verifyWitnessProofs c e wps cw =
      (if countNewIds [] (matchedWitnessIds cw (wps.flatMap (fun s => s.proof))) < cw.threshold
       then .error ("Witness threshold not met: got " ++
          toString (countNewIds [] (matchedWitnessIds cw (wps.flatMap (fun s => s.proof)))) ++
          ", need " ++ toString cw.threshold)
       else .ok ()) := by
    rw [verifyWitnessProofs, vwpFoldSets_eq, hfold]
    simp only [Nat.zero_add]
  constructor
  · rw [hvwp]
    by_cases hlt : countNewIds [] (matchedWitnessIds cw (wps.flatMap (fun s => s.proof))) <
        cw.threshold
    · rw [if_pos hlt]
      constructor
      · intro h; exact absurd h (by simp)
      · intro h; omega
    · rw [if_neg hlt]
      constructor
      · intro _; omega
      · intro _; rfl
  · intro hlt
    rw [hvwp, if_pos hlt]

/-- Counterexample to C3 as stated: a log whose terminal entry has an
active witness parameter with threshold 1, resolved with an explicitly
supplied empty witness-proof list (zero proofs match the final
versionId), resolves successfully instead of failing with a witness
threshold error. -/
theorem witness_zero_proofs_counterexample :
    (resolveDIDFromLog testCrypto { witnessProofs := some [] } [entryOneWitness]).map
      (fun r => (r.meta.deactivated, r.meta.witness)) = .ok (false, some cwOne) ∧
    entryOneWitness.parameters.witness = some (some cwOne) ∧
    cwOne.threshold = 1 := by
  refine ⟨by rfl, rfl, rfl⟩

/-- C3 (amended): the witness gate of resolveDIDFromLog is skipped
entirely when zero supplied proofs match the final versionId (so
resolution succeeds there); when at least one proof matches, the gate
runs verifyWitnessProofs, which, when every matching proof has the
right cryptosuite, an authorized witness and a verifying signature,
succeeds exactly when the number of distinct matched witnesses
(duplicates counted once) reaches the threshold and otherwise fails
with the witness-threshold error. -/
theorem witness_quorum_amended :
    (∀ (c : CryptoPrimitives) (opts : ResolutionOptions) (did : String) (e : DIDLogEntry)
        (meta : DIDResolutionMeta) (cw : WitnessParameter) (ps : List WitnessProofFileEntry),
      meta.witness = some cw → opts.witnessProofs = some ps →
      ps.filter (fun wp => wp.versionId == meta.versionId) = [] →
      witnessGate c opts did e meta = .ok ()) ∧
    (∀ (c : CryptoPrimitives) (opts : ResolutionOptions) (did : String) (e : DIDLogEntry)
        (meta : DIDResolutionMeta) (cw : WitnessParameter) (ps : List WitnessProofFileEntry),
      meta.witness = some cw → opts.witnessProofs = some ps →
      ps.filter (fun wp => wp.versionId == meta.versionId) ≠ [] →
      witnessGate c opts did e meta =
        verifyWitnessProofs c e (ps.filter (fun wp => wp.versionId == meta.versionId)) cw) ∧
    (∀ (c : CryptoPrimitives) (e : DIDLogEntry) (valid : List WitnessProofFileEntry)
        (cw : WitnessParameter),
      (∀ p ∈ valid.flatMap (fun s => s.proof),
        p.cryptosuite = "eddsa-jcs-2022" ∧
        (cw.witnesses.find? (fun w => strStartsWith p.verificationMethod w.id)).isSome = true ∧
        c.witnessSigOk e.versionId p = true) →
      ((verifyWitnessProofs c e valid cw = .ok () ↔
        cw.threshold ≤ countNewIds [] (matchedWitnessIds cw (valid.flatMap (fun s => s.proof)))) ∧
       (countNewIds [] (matchedWitnessIds cw (valid.flatMap (fun s => s.proof))) < cw.threshold →
        verifyWitnessProofs c e valid cw =
          .error ("Witness threshold not met: got " ++
            toString (countNewIds [] (matchedWitnessIds cw (valid.flatMap (fun s => s.proof)))) ++
            ", need " ++ toString cw.threshold)))) := by
  refine ⟨?_, ?_, ?_⟩
  · intro c opts did e meta cw ps hw hops hfil
    simp [witnessGate, hw, hops, hfil]
  · intro c opts did e meta cw ps hw hops hfil
    have hlen : 0 < (ps.filter (fun wp => wp.versionId == meta.versionId)).length :=
      List.length_pos.2 hfil
    simp only [witnessGate, hw, hops]
    rw [if_pos hlen]
  · intro c e valid cw hpass
    exact verifyWitnessProofs_pass c e valid cw hpass

/-- Closed witness for `witness_quorum_amended`: the gate skip at an
empty proof list and the quorum success with one matching proof at
threshold 1, both at concrete inputs. -/
theorem witness_quorum_amended_witness :
    witnessGate testCrypto { witnessProofs := some [] } "d" entryOneWitness
      { witness := some cwOne } = .ok () ∧
    verifyWitnessProofs testCrypto entryOne
      [{ versionId := entryOne.versionId, proof := [proofW1] }] cwOne = .ok () :=
  ⟨witness_quorum_amended.1 testCrypto { witnessProofs := some [] } "d" entryOneWitness
      { witness := some cwOne } cwOne [] rfl rfl rfl,
   (witness_quorum_amended.2.2 testCrypto entryOne
      [{ versionId := entryOne.versionId, proof := [proofW1] }] cwOne
      (by decide)).1.mpr (by decide)⟩

/-! ## Structural lemmas about the resolver loop -/

theorem selectorHit_none (opts : ResolutionOptions) (hN : opts.versionNumber = none)
    (hI : opts.versionId = none) (v : String) (m : DIDResolutionMeta) :
    selectorHit opts v m = false := by
  simp [selectorHit, hN, hI]

theorem finalizePart_ok (c : CryptoPrimitives) (opts : ResolutionOptions) (total i : Nat)
    (meta : DIDResolutionMeta) (host version : String) (e : DIDLogEntry) (out : StepOutcome)
    (hN : opts.versionNumber = none) (hI : opts.versionId = none)
    (h : finalizePart c opts total i meta host version e = .ok out) :
    ∃ st', out = .next st' ∧ st'.meta = meta ∧ st'.host = host := by
  simp only [finalizePart] at h
  split at h
  · simp at h
  · split at h
    · rename_i hsel
      rw [selectorHit_none opts hN hI] at hsel
      simp at hsel
    · split at h
      · split at h
        · simp at h
        · injection h with h2
          exact ⟨_, h2.symm, rfl, rfl⟩
      · injection h with h2
        exact ⟨_, h2.symm, rfl, rfl⟩

theorem applyParamTransitions_fields (m : DIDResolutionMeta) (p : DIDParameters) :
    (applyParamTransitions m p).portable = m.portable ∧
    (applyParamTransitions m p).prerotation = p.nextKeyHashes.isSome ∧
    (applyParamTransitions m p).nextKeyHashes = p.nextKeyHashes.getD [] := by
  unfold applyParamTransitions
  by_cases hD : p.deactivated = some true <;>
    cases hUK : p.updateKeys <;> cases hNK : p.nextKeyHashes <;>
      cases hW : p.witness <;> cases hWS : p.witnesses <;>
        simp [hD, hUK, hNK, hW, hWS]

theorem checkKeysAgainstHashes_sound (c : CryptoPrimitives) (hashes : List String) :
    ∀ (keys : List String) (b : Bool), checkKeysAgainstHashes c hashes keys = .ok b →
      ∀ k ∈ keys, ∃ h, deriveNextKeyHash c k = .ok h ∧ h ∈ hashes := by
  intro keys
  induction keys with
  | nil => intro b _ k hk; simp at hk
  | cons k0 ks ih =>
    intro b h k hk
    rw [checkKeysAgainstHashes] at h
    split at h
    · simp at h
    · rename_i kh hd
      split at h
      · rename_i hc
        have hmem : kh ∈ hashes := (containsStr_iff_mem hashes kh).1 hc
        rcases List.mem_cons.1 hk with rfl | hk2
        · exact ⟨kh, hd, hmem⟩
        · exact ih b h k hk2
      · simp at h

theorem newKeysAreInNextKeys_sound (c : CryptoPrimitives) (keys hashes : List String) (b : Bool)
    (h : newKeysAreInNextKeys c keys hashes = .ok b) (hne : hashes ≠ []) :
    ∀ k ∈ keys, ∃ hsh, deriveNextKeyHash c k = .ok hsh ∧ hsh ∈ hashes := by
  rw [newKeysAreInNextKeys, if_pos (by
    have := List.length_pos.2 hne
    omega)] at h
  exact checkKeysAgainstHashes_sound c hashes keys b h

theorem versionNumberCheck_ok_eq (i : Nat) (vid : String) (vp : String × String)
    (h : versionNumberCheck i vid = .ok vp) :
    vp = versionParts vid ∧ parseIntJS (versionParts vid).1 = some ((i : Int) + 1) := by
  rw [versionNumberCheck] at h
  by_cases hp : parseIntJS (versionParts vid).1 = some ((i : Int) + 1)
  · rw [if_pos hp] at h
    cases h
    exact ⟨rfl, hp⟩
  · rw [if_neg hp] at h
    exact absurd h (by simp)

theorem processEntry_later (c : CryptoPrimitives) (opts : ResolutionOptions) (total i : Nat)
    (st : ReplayState) (e : DIDLogEntry) (out : StepOutcome)
    (hi : 1 ≤ i) (h : processEntry c opts total i st e = .ok out) :
    (versionParts e.versionId).1 ≠ "1" ∧
    processLaterEntry c opts total i
      { st.meta with versionId := e.versionId, updated := e.versionTime }
      st.host (versionParts e.versionId).1 (versionParts e.versionId).2 e = .ok out := by
  simp only [processEntry] at h
  split at h
  · simp at h
  · rename_i vp hvc
    obtain ⟨hvp, hparse⟩ := versionNumberCheck_ok_eq i e.versionId vp hvc
    subst hvp
    have hne : (versionParts e.versionId).1 ≠ "1" := by
      intro heq
      rw [heq] at hparse
      have h1 : parseIntJS "1" = some 1 := by decide
      rw [h1] at hparse
      have h2 : (1 : Int) = (i : Int) + 1 := Option.some.inj hparse
      omega
    split at h
    · rename_i hbeq
      exact absurd (by simpa using hbeq) hne
    · exact ⟨hne, h⟩

theorem processEntry_first (c : CryptoPrimitives) (opts : ResolutionOptions) (total i : Nat)
    (st : ReplayState) (e : DIDLogEntry) (out : StepOutcome)
    (hv1 : (versionParts e.versionId).1 = "1")
    (h : processEntry c opts total i st e = .ok out) :
    processFirstEntry c opts total i
      { st.meta with versionId := e.versionId, updated := e.versionTime }
      (versionParts e.versionId).1 e = .ok out := by
  simp only [processEntry] at h
  split at h
  · simp at h
  · rename_i vp hvc
    obtain ⟨hvp, _⟩ := versionNumberCheck_ok_eq i e.versionId vp hvc
    subst hvp
    split at h
    · exact h
    · rename_i hbeq
      exact absurd (by simp [hv1]) hbeq

theorem processFirstEntry_ok (c : CryptoPrimitives) (opts : ResolutionOptions) (total i : Nat)
    (meta1 : DIDResolutionMeta) (version : String) (e : DIDLogEntry) (out : StepOutcome)
    (hN : opts.versionNumber = none) (hI : opts.versionId = none)
    (h : processFirstEntry c opts total i meta1 version e = .ok out) :
    ∃ st', out = .next st' ∧ st'.host = lastColonSeg e.state.id ∧
      st'.meta.portable = e.parameters.portable.getD meta1.portable ∧
      st'.meta.nextKeyHashes = e.parameters.nextKeyHashes.getD [] ∧
      st'.meta.prerotation = !(e.parameters.nextKeyHashes.getD []).isEmpty := by
  simp only [processFirstEntry] at h
  split at h
  · simp at h
  · split at h
    · simp at h
    · split at h
      · simp at h
      · split at h
        · simp at h
        · obtain ⟨st', hout, hmeta, hhost⟩ :=
            finalizePart_ok c opts total i _ _ version e out hN hI h
          refine ⟨st', hout, ?_, ?_, ?_, ?_⟩
          · rw [hhost]
          · rw [hmeta]
          · rw [hmeta]
          · rw [hmeta]

theorem processLaterEntry_ok (c : CryptoPrimitives) (opts : ResolutionOptions) (total i : Nat)
    (meta1 : DIDResolutionMeta) (host version entryHash : String) (e : DIDLogEntry)
    (out : StepOutcome)
    (hN : opts.versionNumber = none) (hI : opts.versionId = none)
    (h : processLaterEntry c opts total i meta1 host version entryHash e = .ok out) :
    ∃ st' host2,
      out = .next st' ∧
      portabilityGate meta1.portable host (lastColonSeg e.state.id) = .ok host2 ∧
      st'.host = host2 ∧
      st'.meta = applyParamTransitions meta1 e.parameters ∧
      (meta1.prerotation = true →
        ∃ b, newKeysAreInNextKeys c (e.parameters.updateKeys.getD [])
          meta1.nextKeyHashes = .ok b) := by
  simp only [processLaterEntry] at h
  split at h
  · simp at h
  · rename_i host2 hpg
    split at h
    · simp at h
    · split at h
      · simp at h
      · split at h
        · simp at h
        · rename_i b hnk
          obtain ⟨st', hout, hmeta, hhost⟩ :=
            finalizePart_ok c opts total i _ _ version e out hN hI h
          refine ⟨st', host2, hout, hpg, by rw [hhost], by rw [hmeta], ?_⟩
          intro hp
          rw [if_pos hp] at hnk
          exact ⟨b, hnk⟩

theorem processEntry_next (c : CryptoPrimitives) (opts : ResolutionOptions) (total i : Nat)
    (st : ReplayState) (e : DIDLogEntry) (out : StepOutcome)
    (hN : opts.versionNumber = none) (hI : opts.versionId = none)
    (h : processEntry c opts total i st e = .ok out) :
    ∃ st', out = .next st' := by
  simp only [processEntry] at h
  split at h
  · simp at h
  · rename_i vp hvc
    split at h
    · obtain ⟨st', hout, _, _⟩ :=
        processFirstEntry_ok c opts total i _ vp.1 e out hN hI h
      exact ⟨st', hout⟩
    · obtain ⟨st', host2, hout, _, _, _, _⟩ :=
        processLaterEntry_ok c opts total i _ st.host vp.1 vp.2 e out hN hI h
      exact ⟨st', hout⟩

theorem processEntry_nkh (c : CryptoPrimitives) (opts : ResolutionOptions) (total i : Nat)
    (st : ReplayState) (e : DIDLogEntry) (st1 : ReplayState)
    (hN : opts.versionNumber = none) (hI : opts.versionId = none)
    (h : processEntry c opts total i st e = .ok (.next st1)) :
    ∀ l, e.parameters.nextKeyHashes = some l → l ≠ [] →
      st1.meta.nextKeyHashes = l ∧ st1.meta.prerotation = true := by
  intro l hl hlne
  have hie : l.isEmpty = false := by
    cases l with
    | nil => exact absurd rfl hlne
    | cons x xs => rfl
  simp only [processEntry] at h
  split at h
  · simp at h
  · rename_i vp hvc
    split at h
    · obtain ⟨st2, hout, _, _, hnkh, hpre⟩ :=
        processFirstEntry_ok c opts total i _ vp.1 e (.next st1) hN hI h
      injection hout with hout2
      subst hout2
      rw [hl] at hnkh hpre
      refine ⟨by simpa using hnkh, ?_⟩
      rw [hpre]
      simp [hie]
    · obtain ⟨st2, host2, hout, _, _, hmeta, _⟩ :=
        processLaterEntry_ok c opts total i _ st.host vp.1 vp.2 e (.next st1) hN hI h
      injection hout with hout2
      subst hout2
      obtain ⟨_, hpre, hnkh⟩ := applyParamTransitions_fields
        { st.meta with versionId := e.versionId, updated := e.versionTime } e.parameters
      rw [hmeta]
      rw [hl] at hpre hnkh
      exact ⟨by simpa using hnkh, by simpa using hpre⟩

theorem resolveLoop_prerotation (c : CryptoPrimitives) (opts : ResolutionOptions) (total : Nat)
    (hN : opts.versionNumber = none) (hI : opts.versionId = none) :
    ∀ (entries : List DIDLogEntry) (i : Nat) (st : ReplayState) (r : ResolutionResult),
      resolveLoop c opts total i st entries = .ok r →
      ∀ pre ea eb post, entries = pre ++ ea :: eb :: post →
        ∀ l, ea.parameters.nextKeyHashes = some l → l ≠ [] →
          ∀ k ∈ eb.parameters.updateKeys.getD [],
            ∃ h, deriveNextKeyHash c k = .ok h ∧ h ∈ l := by
  intro entries
  induction entries with
  | nil =>
    intro i st r hloop pre ea eb post hsplit
    cases pre <;> simp at hsplit
  | cons e1 rest ih =>
    intro i st r hloop pre ea eb post hsplit l hl hlne k hk
    rw [resolveLoop] at hloop
    split at hloop
    · simp at hloop
    · rename_i r2 hdone
      obtain ⟨st2, hout⟩ := processEntry_next c opts total i st e1 _ hN hI hdone
      simp at hout
    · rename_i st1 hnext
      cases pre with
      | nil =>
        rw [List.nil_append] at hsplit
        injection hsplit with h1 h2
        subst h1
        subst h2
        obtain ⟨hnkh1, hpre1⟩ := processEntry_nkh c opts total i st e1 st1 hN hI hnext l hl hlne
        rw [resolveLoop] at hloop
        split at hloop
        · simp at hloop
        · rename_i r2 hdone
          obtain ⟨st2, hout⟩ := processEntry_next c opts total (i + 1) st1 eb _ hN hI hdone
          simp at hout
        · rename_i st2 hnext2
          obtain ⟨hne2, hlater⟩ :=
            processEntry_later c opts total (i + 1) st1 eb _ (by omega) hnext2
          obtain ⟨st3, host2, _, _, _, _, hnkink⟩ :=
            processLaterEntry_ok c opts total (i + 1) _ st1.host _ _ eb _ hN hI hlater
          obtain ⟨b, hok⟩ := hnkink hpre1
          have hok2 : newKeysAreInNextKeys c (eb.parameters.updateKeys.getD [])
              st1.meta.nextKeyHashes = .ok b := hok
          have hsound := newKeysAreInNextKeys_sound c
            (eb.parameters.updateKeys.getD []) st1.meta.nextKeyHashes b hok2
            (by rw [hnkh1]; exact hlne)
          obtain ⟨hsh, hdk, hmem⟩ := hsound k hk
          rw [hnkh1] at hmem
          exact ⟨hsh, hdk, hmem⟩
      | cons p pre2 =>
        rw [List.cons_append] at hsplit
        injection hsplit with h1 h2
        exact ih (i + 1) st1 r hloop pre2 ea eb post h2 l hl hlne k hk

/-- C4: if resolution of a log succeeds (with no version selectors),
then whenever an entry declares a non-empty nextKeyHashes commitment
list, every update key of the next entry hashes, via deriveNextKeyHash
(the base58btc sha2-256 multihash of the key string), into that list;
and a key whose hash is not among the previous commitments makes
newKeysAreInNextKeys fail with the Invalid-update-key error. -/
theorem prerotation_gate_sound :
    (∀ (c : CryptoPrimitives) (opts : ResolutionOptions) (log : List DIDLogEntry)
        (r : ResolutionResult),
      opts.versionNumber = none → opts.versionId = none →
      resolveDIDFromLog c opts log = .ok r →
      ∀ pre ea eb post, log = pre ++ ea :: eb :: post →
        ∀ l, ea.parameters.nextKeyHashes = some l → l ≠ [] →
          ∀ k ∈ eb.parameters.updateKeys.getD [],
            ∃ h, deriveNextKeyHash c k = .ok h ∧ h ∈ l) ∧
    (∀ (c : CryptoPrimitives) (k : String) (keys hashes : List String) (h : String),
      deriveNextKeyHash c k = .ok h → h ∉ hashes → hashes ≠ [] →
      newKeysAreInNextKeys c (k :: keys) hashes =
        .error ("Invalid update key " ++ h ++ ". Not found in nextKeyHashes")) := by
  constructor
  · intro c opts log r hN hI hres pre ea eb post hsplit l hl hlne k hk
    cases log with
    | nil => cases pre <;> simp at hsplit
    | cons e0 restL =>
      simp only [resolveDIDFromLog] at hres
      split at hres
      · simp at hres
      · exact resolveLoop_prerotation c opts (e0 :: restL).length hN hI (e0 :: restL) 0
          initialReplayState r hres pre ea eb post hsplit l hl hlne k hk
  · intro c k keys hashes h hd hnm hne
    have hcf : hashes.contains h = false := by
      cases hcont : hashes.contains h
      · rfl
      · exact absurd ((containsStr_iff_mem hashes h).1 hcont) hnm
    rw [newKeysAreInNextKeys, if_pos (by
      have := List.length_pos.2 hne
      omega)]
    simp only [checkKeysAgainstHashes, hd]
    rw [if_neg (by rw [hcf]; simp)]

/-- Closed witness for `prerotation_gate_sound`: a concrete two-entry
log with a pre-rotation commitment resolves, so the rotated key honours
the commitment. -/
theorem prerotation_gate_sound_witness :
    ∃ h, deriveNextKeyHash testCrypto "did:key:zKey2" = .ok h ∧ h ∈ [specH0] := by
  obtain ⟨r, hr⟩ : ∃ r,
      resolveDIDFromLog testCrypto {} [entryOnePrerotation, entryTwoRotated] = .ok r := ⟨_, rfl⟩
  exact prerotation_gate_sound.1 testCrypto {} [entryOnePrerotation, entryTwoRotated] r
    rfl rfl hr [] entryOnePrerotation entryTwoRotated [] rfl [specH0] rfl
    (by intro hc; cases hc) "did:key:zKey2" (by
      show "did:key:zKey2" ∈ (entryTwoRotated.parameters.updateKeys.getD [])
      exact List.mem_singleton.2 rfl)

theorem portabilityGate_false_ok (host newHost h2 : String)
    (h : portabilityGate false host newHost = .ok h2) :
    newHost = host ∧ h2 = host := by
  by_cases hne : newHost = host
  · subst hne
    rw [portabilityGate, if_neg (by simp)] at h
    rw [if_neg (by simp)] at h
    injection h with h3
    exact ⟨rfl, h3.symm⟩
  · rw [portabilityGate, if_pos (by simp [bne_iff_ne, hne])] at h
    exact absurd h (by simp)

theorem resolveLoop_host (c : CryptoPrimitives) (opts : ResolutionOptions) (total : Nat)
    (hN : opts.versionNumber = none) (hI : opts.versionId = none) :
    ∀ (entries : List DIDLogEntry) (i : Nat) (st : ReplayState) (r : ResolutionResult),
      1 ≤ i → st.meta.portable = false →
      resolveLoop c opts total i st entries = .ok r →
      ∀ pre e post, entries = pre ++ e :: post → lastColonSeg e.state.id = st.host := by
  intro entries
  induction entries with
  | nil =>
    intro i st r hi hport hloop pre e post hsplit
    cases pre <;> simp at hsplit
  | cons e1 rest ih =>
    intro i st r hi hport hloop pre e post hsplit
    rw [resolveLoop] at hloop
    split at hloop
    · simp at hloop
    · rename_i r2 hdone
      obtain ⟨st2, hout⟩ := processEntry_next c opts total i st e1 _ hN hI hdone
      simp at hout
    · rename_i st1 hnext
      obtain ⟨hne1, hlater⟩ := processEntry_later c opts total i st e1 _ hi hnext
      obtain ⟨st2, host2, hout, hpg, hsthost, hstmeta, _⟩ :=
        processLaterEntry_ok c opts total i _ st.host _ _ e1 _ hN hI hlater
      injection hout with hout2
      subst hout2
      have hpg2 : portabilityGate st.meta.portable st.host (lastColonSeg e1.state.id) =
          .ok host2 := hpg
      rw [hport] at hpg2
      obtain ⟨hnewhost, hhost2⟩ := portabilityGate_false_ok _ _ _ hpg2
      have hmeta2 : st1.meta = applyParamTransitions
          { st.meta with versionId := e1.versionId, updated := e1.versionTime }
          e1.parameters := hstmeta
      have hport1 : st1.meta.portable = false := by
        rw [hmeta2]
        obtain ⟨hp, _, _⟩ := applyParamTransitions_fields
          { st.meta with versionId := e1.versionId, updated := e1.versionTime } e1.parameters
        rw [hp]
        exact hport
      cases pre with
      | nil =>
        rw [List.nil_append] at hsplit
        injection hsplit with h1 h2
        subst h1
        exact hnewhost
      | cons p pre2 =>
        rw [List.cons_append] at hsplit
        injection hsplit with h1 h2
        have := ih (i + 1) st1 r (by omega) hport1 hloop pre2 e post h2
        rw [this, hsthost, hhost2]

/-- C5: with portability disabled at the first entry, a successful
resolution (with no version selectors) forces the last colon segment of
every entry document id to equal that of the first entry; the
portability gate itself rejects a changed host with the
portability-disabled error when portability is off, and updates the
tracked host when portability is on. -/
theorem portability_gate_sound :
    (∀ (c : CryptoPrimitives) (opts : ResolutionOptions) (e0 : DIDLogEntry)
        (restL : List DIDLogEntry) (r : ResolutionResult),
      opts.versionNumber = none → opts.versionId = none →
      (versionParts e0.versionId).1 = "1" →
      e0.parameters.portable.getD false = false →
      resolveDIDFromLog c opts (e0 :: restL) = .ok r →
      ∀ pre e post, e0 :: restL = pre ++ e :: post →
        lastColonSeg e.state.id = lastColonSeg e0.state.id) ∧
    (∀ host newHost : String, newHost ≠ host →
      portabilityGate false host newHost =
        .error "Cannot move DID: portability is disabled") ∧
    (∀ host newHost : String,
      portabilityGate true host newHost = .ok (if newHost == host then host else newHost)) := by
  refine ⟨?_, ?_, ?_⟩
  · intro c opts e0 restL r hN hI hv1 hp0 hres pre e post hsplit
    simp only [resolveDIDFromLog] at hres
    split at hres
    · simp at hres
    · rw [resolveLoop] at hres
      split at hres
      · simp at hres
      · rename_i r2 hdone
        obtain ⟨st2, hout⟩ := processEntry_next c opts (e0 :: restL).length 0
          initialReplayState e0 _ hN hI hdone
        simp at hout
      · rename_i st1 hnext
        have hfirst := processEntry_first c opts (e0 :: restL).length 0
          initialReplayState e0 _ hv1 hnext
        obtain ⟨st2, hout, hhost, hportable, _, _⟩ :=
          processFirstEntry_ok c opts (e0 :: restL).length 0 _ _ e0 _ hN hI hfirst
        injection hout with hout2
        subst hout2
        have hport1 : st1.meta.portable = false := by
          rw [hportable]
          exact hp0
        cases pre with
        | nil =>
          rw [List.nil_append] at hsplit
          injection hsplit with h1 h2
          subst h1
          rfl
        | cons p pre2 =>
          rw [List.cons_append] at hsplit
          injection hsplit with h1 h2
          have := resolveLoop_host c opts (e0 :: restL).length hN hI restL 1 st1 r
            (by omega) hport1 hres pre2 e post h2
          rw [this, hhost]
  · intro host newHost hne
    rw [portabilityGate, if_pos (by simp [bne_iff_ne, hne])]
  · intro host newHost
    by_cases hne : newHost = host
    · subst hne
      rw [portabilityGate, if_neg (by simp), if_neg (by simp), if_pos (by simp)]
    · rw [portabilityGate, if_neg (by simp [bne_iff_ne, hne]),
        if_pos (by simp [bne_iff_ne, hne]), if_neg (by simp [hne])]

/-- Closed witness for `portability_gate_sound`: a concrete
two-entry non-portable log resolves with both entries on the same host,
and the gate behaviors at concrete hosts. -/
theorem portability_gate_sound_witness :
    lastColonSeg entryTwoDeact.state.id = lastColonSeg entryOne.state.id ∧
    portabilityGate false "example.com" "evil.com" =
      .error "Cannot move DID: portability is disabled" ∧
    portabilityGate true "example.com" "new.com" =
      .ok (if "new.com" == "example.com" then "example.com" else "new.com") := by
  obtain ⟨r, hr⟩ : ∃ r,
      resolveDIDFromLog testCrypto {} [entryOne, entryTwoDeact] = .ok r := ⟨_, rfl⟩
  exact ⟨portability_gate_sound.1 testCrypto {} entryOne [entryTwoDeact] r rfl rfl
      (by decide) rfl hr [entryOne] entryTwoDeact [] rfl,
    portability_gate_sound.2.1 "example.com" "evil.com" (by decide),
    portability_gate_sound.2.2 "example.com" "new.com"⟩

/-! ## C2: the SCID derivation check -/

theorem resolveDIDFromLog_protocol_ok (c : CryptoPrimitives) (opts : ResolutionOptions)
    (e0 : DIDLogEntry) (restL : List DIDLogEntry)
    (hm : e0.parameters.method = some PROTOCOL) :
    resolveDIDFromLog c opts (e0 :: restL) =
      resolveLoop c opts (e0 :: restL).length 0 initialReplayState (e0 :: restL) := by
  simp only [resolveDIDFromLog, hm]
  simp

/-- C2: resolution fails with the SCID error exactly on a first entry
whose scid differs from the derived hash of its placeholderized
pre-SCID form; when they agree the scidIsFromHash check passes, and
createSCID is the identity on the first-entry hash. -/
theorem scid_check_sound :
    ∀ (c : CryptoPrimitives) (opts : ResolutionOptions) (e0 : DIDLogEntry)
      (restL : List DIDLogEntry) (hsh : String),
      e0.parameters.method = some PROTOCOL →
      (versionParts e0.versionId).1 = "1" →
      deriveHash c (preScidEntry e0 (e0.parameters.scid.getD "undefined") e0.versionTime) =
        .ok hsh →
      ((e0.parameters.scid.getD "undefined" ≠ hsh →
        resolveDIDFromLog c opts (e0 :: restL) =
          .error ("SCID " ++ e0.parameters.scid.getD "undefined" ++
            " not derived from logEntryHash " ++ hsh)) ∧
       (e0.parameters.scid.getD "undefined" = hsh →
        scidIsFromHash (e0.parameters.scid.getD "undefined") hsh = true) ∧
       createSCID hsh = hsh) := by
  intro c opts e0 restL hsh hm hv1 hdh
  refine ⟨?_, ?_, rfl⟩
  · intro hne
    have hvc : versionNumberCheck 0 e0.versionId = .ok (versionParts e0.versionId) := by
      rw [versionNumberCheck, if_pos (by rw [hv1]; decide)]
    have hpf : processFirstEntry c opts (e0 :: restL).length 0
        { initialReplayState.meta with versionId := e0.versionId, updated := e0.versionTime }
        (versionParts e0.versionId).1 e0 =
        .error ("SCID " ++ e0.parameters.scid.getD "undefined" ++
          " not derived from logEntryHash " ++ hsh) := by
      simp only [processFirstEntry, hdh]
      rw [if_pos (by simp [scidIsFromHash, createSCID, hne])]
    have hpe : processEntry c opts (e0 :: restL).length 0 initialReplayState e0 =
        .error ("SCID " ++ e0.parameters.scid.getD "undefined" ++
          " not derived from logEntryHash " ++ hsh) := by
      simp only [processEntry, hvc]
      rw [if_pos (by simp [hv1])]
      exact hpf
    rw [resolveDIDFromLog_protocol_ok c opts e0 restL hm, resolveLoop, hpe]
  · intro heq
    rw [heq]
    simp [scidIsFromHash, createSCID]

/-- Closed witness for `scid_check_sound`: a first entry with a wrong
scid is rejected with the SCID error, and the check passes on the
correctly derived scid. -/
theorem scid_check_sound_witness :
    resolveDIDFromLog testCrypto {} [entryOneBadScid] =
      .error ("SCID " ++ "badscid" ++ " not derived from logEntryHash " ++ specH0) ∧
    scidIsFromHash specH0 specH0 = true :=
  ⟨(scid_check_sound testCrypto {} entryOneBadScid [] specH0 rfl (by decide) rfl).1
      (by decide),
   (scid_check_sound testCrypto {} entryOne [] specH0 rfl (by decide) rfl).2.1 rfl⟩

/-! ## C1: the hash-chain comparison never recomputes a hash -/

/-- C1 (code bug): the two-entry log whose second entry carries the
arbitrary versionId hash part "bogus" resolves successfully, because
the resolver rebuilds the compared string from the split of the stored
versionId itself (hashChainValid trivially compares the versionId with
itself); the hash the spec requires to be recomputed over the pre-hash
form of the entry is a different string. -/
theorem hash_chain_not_recomputed :
    isOkE (resolveDIDFromLog testCrypto {} [entryOne, entryTwoBogus]) = true ∧
    versionParts entryTwoBogus.versionId = ("2", "bogus") ∧
    hashChainValid ("2-" ++ "bogus") entryTwoBogus.versionId = true ∧
    deriveHash testCrypto (specPreHashEntry 2 entryTwoBogus) = .ok specH0 ∧
    specH0 ≠ "bogus" := by
  refine ⟨by rfl, by decide, by decide, rfl, by decide⟩

/-! ## C6: deactivation is not terminal for the resolver -/

/-- C6 (code bug): a log whose second entry sets deactivated and whose
third entry comes after it still resolves successfully; the resolver
merely latches meta.deactivated and keeps processing entries. -/
theorem deactivation_not_terminal :
    (resolveDIDFromLog testCrypto {} [entryOne, entryTwoDeact, entryThree]).map
      (fun r => r.meta.deactivated) = .ok true ∧
    entryTwoDeact.parameters.deactivated = some true :=
  ⟨rfl, rfl⟩

/-! ## C7: updateDID rejects a deactivated DID -/

/-- C7: when a log resolves with meta.deactivated, updateDID fails with
the deactivated-DID error before the continuation that would construct
and append a new entry is ever invoked. -/
theorem updateDID_rejects_deactivated :
    ∀ (c : CryptoPrimitives) (rest : ResolutionResult → Except String (List DIDLogEntry))
      (log : List DIDLogEntry) (r : ResolutionResult),
      resolveDIDFromLog c {} log = .ok r → r.meta.deactivated = true →
      updateDID c rest log = .error "Cannot update deactivated DID" := by
  intro c rest log r hres hdeact
  simp only [updateDID, hres]
  rw [if_pos hdeact]

/-- Closed witness for `updateDID_rejects_deactivated`: updating a
concrete deactivated log fails with the policy error for an arbitrary
continuation. -/
theorem updateDID_rejects_deactivated_witness :
    updateDID testCrypto (fun _ => .ok []) [entryOne, entryTwoDeact] =
      .error "Cannot update deactivated DID" := by
  obtain ⟨r, hr⟩ : ∃ r,
      resolveDIDFromLog testCrypto {} [entryOne, entryTwoDeact] = .ok r := ⟨_, rfl⟩
  have hd : r.meta.deactivated = true := by
    have hmap : (resolveDIDFromLog testCrypto {} [entryOne, entryTwoDeact]).map
        (fun x => x.meta.deactivated) = .ok true := rfl
    rw [hr] at hmap
    have hmap2 : (Except.ok r.meta.deactivated : Except String Bool) = .ok true := hmap
    injection hmap2
  exact updateDID_rejects_deactivated testCrypto (fun _ => .ok []) [entryOne, entryTwoDeact]
    r hr hd
